import Mathlib

/-!
# Verification of the attachment pipeline and history store of a Discord bot

Shallow embedding of the two attachment modules (`src/unnamed/part_000`, the
main module, modelled in namespace `Attach`, and
`src/bots/Fuku/utils/attachments.js`, the variant, modelled in namespace
`Fuku`) and of the history store (`src/config.js`, modelled in namespace
`Store`).

Conventions of the embedding:
* JavaScript strings are Lean `String`s; optional / possibly-`undefined`
  string fields are `Option String`.  A JS truthiness test on a string
  (`if (s)`, `s || t`) is false exactly for `undefined`/`null` and `""`,
  which `jsTruthy` / `jsOr` model.
* JS numbers that the code checks with `Number.isFinite` are modelled as
  `Option Int` (`none` = absent / non-finite).
* Buffers are lists of bytes (`List Nat`).  The runtime codecs
  `Buffer.toString('base64')` / `Buffer.toString('utf8')` are opaque to every
  claim, so they are passed in as an explicit `Codec` argument.
* Effects (network fetch, the remote upload API, the filesystem) are passed
  in as explicit outcome values, so the functions become pure state
  transformers over those oracles.
* Built-in `String` operations of Lean do not reduce in the kernel, so the
  JS string operations (`trim`, `startsWith`, `toLowerCase`, `split`,
  `path.extname`, the extension regex) are implemented over `List Char`.
-/

/-- Truthiness of a JS string value (`undefined`/`null`/`""` are falsy). -/
def jsTruthy : Option String → Bool
  | none => false
  | some s => s.toList ≠ []

/-- JS `a || b` for a string `a` (with `b` a plain string). -/
def jsOr (a b : String) : String :=
  if a.toList = [] then b else a

/-- JS `a || b` where `a` is a possibly-absent string and `b` a string. -/
def jsOrOpt (a : Option String) (b : String) : String :=
  match a with
  | none => b
  | some s => jsOr s b

/-- JS `a || b` on possibly-absent strings, keeping absence. -/
def jsOrOpt2 (a b : Option String) : Option String :=
  if jsTruthy a then a else b

/-- JS `s.startsWith(pre)`. -/
def jsStartsWith (s pre : String) : Bool :=
  pre.toList.isPrefixOf s.toList

/-- Whitespace for JS `String.prototype.trim` (ASCII subset; the claims only
exercise `' '` and the empty string). -/
def jsIsSpace (c : Char) : Bool :=
  c = ' ' ∨ c = '\t' ∨ c = '\n' ∨ c = '\r' ∨ c = '\x0b' ∨ c = '\x0c'

/-- JS `s.trim()`. -/
def jsTrim (s : String) : String :=
  String.mk (((s.toList.dropWhile jsIsSpace).reverse.dropWhile jsIsSpace).reverse)

/-- JS `s.toLowerCase()` (ASCII; file extensions in this code are ASCII). -/
def jsToLower (s : String) : String :=
  String.mk (s.toList.map Char.toLower)

/-- Does the pattern occur as a contiguous substring? (JS `s.includes(pat)`;
used only to state properties about notice strings.) -/
def listContainsSub (pat : List Char) : List Char → Bool
  | [] => pat.isPrefixOf []
  | c :: rest => pat.isPrefixOf (c :: rest) || listContainsSub pat rest

/-- String-level substring test. -/
def strContains (s pat : String) : Bool :=
  listContainsSub pat.toList s.toList

/-!
## History store (`src/config.js`)
-/

namespace Store

/-- `Number.parseInt(String(q), 10)` for a finite JS number `q` whose
`String` rendering is plain decimal notation: the sign and the digits before
the decimal point are parsed, i.e. truncation toward zero. -/
def jsParseInt (q : ℚ) : Int :=
  q.num.tdiv q.den

/-- `DEFAULT_KEEP`: `HISTORY_LIMIT` from the environment when it parses to an
integer (clamped to at least 1), otherwise 20.  The environment value is
modelled already parsed (`none` = unset or unparsable). -/
def DEFAULT_KEEP (envParsed : Option Int) : ℕ :=
  match envParsed with
  | some n => (max 1 n).toNat
  | none => 20

/-- `normalizeCount(value, fallback)`: the supplied count when it parses to a
positive integer, the fallback otherwise.  `value = none` models
`undefined`/`null`/`NaN`/unparsable input (`parseInt` yields `NaN` there). -/
def normalizeCount (value : Option ℚ) (fallback : ℕ) : ℕ :=
  match value with
  | none => fallback
  | some q =>
      let parsed := jsParseInt q
      if 0 < parsed then parsed.toNat else fallback

/-- One stored history entry (`{role, content, ts}`). -/
structure HistoryEntry where
  role : String
  content : String
  ts : ℕ
deriving DecidableEq

/-- `getMemoryKey(userId, guildId, channelId)`:
`` `${userId}|${guildId ?? ''}|${channelId ?? ''}` ``. -/
def getMemoryKey (userId : String) (guildId channelId : Option String) : String :=
  userId ++ "|" ++ guildId.getD "" ++ "|" ++ channelId.getD ""

/-- The in-memory backend: `memoryStore.get(key) || []` viewed as a total
function from keys to buckets. -/
def MemStore := String → List HistoryEntry

/-- The last `n` elements of a list (the result of the trim loop
`while (messages.length > keep) messages.shift()`, and of `slice(-n)` for
`n ≥ 1`). -/
def lastN (n : ℕ) (l : List α) : List α :=
  l.drop (l.length - n)

/-- `pushMessage` on the in-memory backend: append the entry to the key's
bucket, then shift from the front until at most `keep` entries remain. -/
def pushMessageMem (s : MemStore) (userId : String) (guildId channelId : Option String)
    (role content : String) (ts : ℕ) (keep : Option ℚ) (dk : ℕ) : MemStore :=
  let normalizedKeep := normalizeCount keep dk
  let key := getMemoryKey userId guildId channelId
  fun k => if k = key then lastN normalizedKeep (s key ++ [⟨role, content, ts⟩]) else s k

/-- `getLastMessages` on the in-memory backend: `messages.slice(-limit)`
(with `limit` normalized; the normalized limit is always ≥ 1 when the
default keep-count is, so `slice(-limit)` is the last `limit` entries). -/
def getLastMessagesMem (s : MemStore) (userId : String) (guildId channelId : Option String)
    (limit : Option ℚ) (dk : ℕ) : List HistoryEntry :=
  lastN (normalizeCount limit dk) (s (getMemoryKey userId guildId channelId))

/-- `clearHistory` on the in-memory backend (`memoryStore.delete(key)`;
subsequent reads of the key see `[]`). -/
def clearHistoryMem (s : MemStore) (userId : String) (guildId channelId : Option String) :
    MemStore :=
  let key := getMemoryKey userId guildId channelId
  fun k => if k = key then [] else s k

/-!
### SQLite backend

One row of the `messages` table.  `rowid` is SQLite's implicit integer key
(strictly increasing across inserts); `guild_id`/`channel_id` are nullable
columns, so `Option String` with `none` = SQL `NULL`.
-/

structure SqlRow where
  rowid : ℕ
  user_id : String
  guild_id : Option String
  channel_id : Option String
  role : String
  content : String
  ts : ℕ
deriving DecidableEq

/-- The database: the rows of `messages` (kept in insertion order, which is
also ascending `rowid` order) together with the next fresh `rowid`. -/
structure SqlDb where
  rows : List SqlRow
  nextRowid : ℕ
deriving DecidableEq

/-- The shared `WHERE` clause of `trimStmt` / `selectStmt` / `clearStmt`:
`user_id = @u AND ((@g IS NULL AND guild_id IS NULL) OR guild_id = @g) AND
((@c IS NULL AND channel_id IS NULL) OR channel_id = @c)`.  Under SQL
three-valued logic this selects exactly the rows whose nullable columns are
equal, as `Option`s, to the bound parameters (`NULL` matches only `NULL`). -/
def matchKey (u : String) (g c : Option String) (r : SqlRow) : Bool :=
  decide (r.user_id = u ∧ r.guild_id = g ∧ r.channel_id = c)

/-- `a` sorts no later than `b` under `ORDER BY ts DESC, rowid DESC`. -/
def beforeDesc (a b : SqlRow) : Bool :=
  decide (b.ts < a.ts ∨ (b.ts = a.ts ∧ b.rowid ≤ a.rowid))

/-- Insertion step of the `ORDER BY ts DESC, rowid DESC` sort. -/
def insertDesc (r : SqlRow) : List SqlRow → List SqlRow
  | [] => [r]
  | x :: xs => if beforeDesc r x then r :: x :: xs else x :: insertDesc r xs

/-- `ORDER BY ts DESC, rowid DESC` (insertion sort; the comparator is a total
order on the pairs `(ts, rowid)` and rowids are unique, so any sorting
algorithm yields this list). -/
def sortDesc (l : List SqlRow) : List SqlRow :=
  l.foldr insertDesc []

/-- `insertStmt`: append one row with a fresh `rowid`. -/
def insertSql (db : SqlDb) (u : String) (g c : Option String)
    (role content : String) (ts : ℕ) : SqlDb :=
  { rows := db.rows ++ [⟨db.nextRowid, u, g, c, role, content, ts⟩],
    nextRowid := db.nextRowid + 1 }

/-- `trimStmt`: delete the rows of the key whose rank in
`ORDER BY ts DESC, rowid DESC` is `≥ keep` (`LIMIT -1 OFFSET @keep`). -/
def trimSql (db : SqlDb) (u : String) (g c : Option String) (keep : ℕ) : SqlDb :=
  let victims := ((sortDesc (db.rows.filter (matchKey u g c))).drop keep).map (·.rowid)
  { db with rows := db.rows.filter (fun r => ¬ r.rowid ∈ victims) }

/-- `pushMessage` on the SQLite backend: insert, then trim the key to the
normalized keep-count. -/
def pushMessageSql (db : SqlDb) (userId : String) (guildId channelId : Option String)
    (role content : String) (ts : ℕ) (keep : Option ℚ) (dk : ℕ) : SqlDb :=
  let db1 := insertSql db userId guildId channelId role content ts
  trimSql db1 userId guildId channelId (normalizeCount keep dk)

/-- Projection of a row to the entry shape returned by
`SELECT role, content, ts`. -/
def rowEntry (r : SqlRow) : HistoryEntry :=
  ⟨r.role, r.content, r.ts⟩

/-- `getLastMessages` on the SQLite backend: `selectStmt` takes the first
`limit` rows of the key in `ts DESC, rowid DESC` order, and the JS code then
reverses them into chronological order. -/
def getLastMessagesSql (db : SqlDb) (userId : String) (guildId channelId : Option String)
    (limit : Option ℚ) (dk : ℕ) : List HistoryEntry :=
  ((sortDesc (db.rows.filter (matchKey userId guildId channelId))).take
    (normalizeCount limit dk)).reverse.map rowEntry

/-- `clearHistory` on the SQLite backend: delete every row of the key. -/
def clearHistorySql (db : SqlDb) (userId : String) (guildId channelId : Option String) :
    SqlDb :=
  { db with rows := db.rows.filter (fun r => ¬ matchKey userId guildId channelId r) }

/-- Well-formedness SQLite guarantees for the real table: rowids are unique
and below the next fresh rowid. -/
def SqlDb.WF (db : SqlDb) : Prop :=
  (db.rows.map (·.rowid)).Nodup ∧ ∀ r ∈ db.rows, r.rowid < db.nextRowid

/-- The empty database. -/
def emptyDb : SqlDb := ⟨[], 0⟩

/-- One message handed to `pushMessage` by the conversation driver (the
timestamp stands for the `Date.now()` the call observes). -/
structure PushItem where
  role : String
  content : String
  ts : ℕ
deriving DecidableEq

/-- The entry a pushed item becomes. -/
def itemEntry (it : PushItem) : HistoryEntry :=
  ⟨it.role, it.content, it.ts⟩

/-- A sequence of `pushMessage` calls for one key, in-memory backend. -/
def pushAllMem (s : MemStore) (userId : String) (guildId channelId : Option String)
    (items : List PushItem) (keep : Option ℚ) (dk : ℕ) : MemStore :=
  items.foldl
    (fun st it => pushMessageMem st userId guildId channelId it.role it.content it.ts keep dk) s

/-- A sequence of `pushMessage` calls for one key, SQLite backend. -/
def pushAllSql (db : SqlDb) (userId : String) (guildId channelId : Option String)
    (items : List PushItem) (keep : Option ℚ) (dk : ℕ) : SqlDb :=
  items.foldl
    (fun d it => pushMessageSql d userId guildId channelId it.role it.content it.ts keep dk) db

/-- Strict "older than" for rows: earlier timestamp, or equal timestamp and
smaller rowid.  Rows of one key always sit in the table in this ascending
order (timestamps never decrease and rowids grow). -/
def ascRel (a b : SqlRow) : Prop :=
  a.ts < b.ts ∨ (a.ts = b.ts ∧ a.rowid < b.rowid)

/-- The bucket update one in-memory `pushMessage` performs on its key. -/
def memStep (keep : ℕ) (b : List HistoryEntry) (e : HistoryEntry) : List HistoryEntry :=
  lastN keep (b ++ [e])

end Store

/-!
## Attachment pipeline, main module (`src/unnamed/part_000`)
-/

namespace Attach

/-- A fetched response body (`Buffer`). -/
abbrev Buf := List ℕ

/-- The runtime codecs `Buffer.toString('base64')` / `Buffer.toString('utf8')`;
opaque to every claim, supplied by the caller. -/
structure Codec where
  base64 : Buf → String
  utf8 : Buf → String

/-- One item of the outgoing parts list (tagged union
`{text} | {inlineData:{mimeType,data}} | {fileData:{fileUri,mimeType}}`). -/
inductive Part where
  | text (s : String)
  | inlineData (mimeType : String) (data : String)
  | fileData (fileUri : String) (mimeType : String)
deriving DecidableEq

/-- `INLINE_LIMIT_TEXT_BYTES = 1 * 1024 * 1024`. -/
def INLINE_LIMIT_TEXT_BYTES : ℕ := 1048576

/-- `RETRY_ATTEMPTS = 3`. -/
def RETRY_ATTEMPTS : ℕ := 3

/-- `RETRY_DELAY_MS = 500`. -/
def RETRY_DELAY_MS : ℕ := 500

/-- `IMAGE_EXTS` of the main module. -/
def IMAGE_EXTS : List String :=
  [".png", ".jpg", ".jpeg", ".webp", ".gif", ".bmp", ".tiff", ".tif", ".heic"]

/-- `TEXT_EXTS`. -/
def TEXT_EXTS : List String :=
  [".txt", ".md", ".csv", ".json", ".xml", ".log", ".yaml", ".yml"]

/-- `MIME_BY_EXTENSION` lookup (`none` = key absent, i.e. `undefined`). -/
def mimeByExtension (ext : String) : Option String :=
  match ext with
  | ".png" => some "image/png"
  | ".jpg" => some "image/jpeg"
  | ".jpeg" => some "image/jpeg"
  | ".webp" => some "image/webp"
  | ".gif" => some "image/gif"
  | ".bmp" => some "image/bmp"
  | ".tiff" => some "image/tiff"
  | ".tif" => some "image/tiff"
  | ".heic" => some "image/heic"
  | ".svg" => some "image/svg+xml"
  | ".pdf" => some "application/pdf"
  | ".txt" => some "text/plain"
  | ".md" => some "text/markdown"
  | ".csv" => some "text/csv"
  | ".json" => some "application/json"
  | ".xml" => some "application/xml"
  | ".log" => some "text/plain"
  | ".yaml" => some "application/x-yaml"
  | ".yml" => some "application/x-yaml"
  | _ => none

/-- The characters after the last `'.'` of the name, or `none` when the name
has no `'.'`. -/
def afterLastDot (cs : List Char) : Option (List Char) :=
  let rev := cs.reverse
  let suf := rev.takeWhile (fun c => c ≠ '.')
  if suf.length < rev.length then some suf.reverse else none

/-- The match of the extension regex `/(\.[^.\/\\]+)$/i` on the name,
lowercased: the final dot-suffix when it is nonempty and free of `/` and
`\`. -/
def regexExt (name : String) : String :=
  match afterLastDot name.toList with
  | none => ""
  | some suf =>
      if suf ≠ [] ∧ ¬ '/' ∈ suf ∧ ¬ '\\' ∈ suf then
        String.mk ('.' :: suf.map Char.toLower)
      else ""

/-- `name.split('.').pop() || ''` lowercased: the part after the last dot, or
the whole name when it has no dot (a quirk of `extToMime`). -/
def splitPopExt (name : String) : String :=
  match afterLastDot name.toList with
  | none => jsToLower name
  | some suf => String.mk (suf.map Char.toLower)

/-- `extToMime(name)`: switch over the popped extension with the
`MIME_BY_EXTENSION` table (under the `.`-prefixed key) as default. -/
def extToMime (name : String) : String :=
  let ext := splitPopExt name
  match ext with
  | "png" => "image/png"
  | "jpg" => "image/jpeg"
  | "jpeg" => "image/jpeg"
  | "webp" => "image/webp"
  | "gif" => "image/gif"
  | "bmp" => "image/bmp"
  | "tif" => "image/tiff"
  | "tiff" => "image/tiff"
  | "heic" => "image/heic"
  | _ => jsOrOpt (mimeByExtension ("." ++ ext)) "application/octet-stream"

/-- `path.extname(name).toLowerCase()`: the final dot-suffix of the basename
(the part after the last `/`), empty when the basename has no dot or its last
dot is its leading character.  (The all-dots corner cases `".."` etc. of
Node's `extname` are not distinguished; no name in this code is all dots.) -/
def extnameLower (name : String) : String :=
  let base := (name.toList.reverse.takeWhile (fun c => c ≠ '/')).reverse
  let rev := base.reverse
  let suf := rev.takeWhile (fun c => c ≠ '.')
  if suf.length + 1 < rev.length then
    String.mk (('.' :: suf.reverse).map Char.toLower)
  else ""

/-- A raw Discord attachment descriptor as `classifyDiscordAttachment`
reads it. -/
structure RawAttachment where
  name : Option String
  contentType : Option String
  width : Option Int
  height : Option Int
  size : Option Int
  url : Option String
  proxyURL : Option String

/-- The classifier result. -/
structure ClassifiedAttachment where
  isImage : Bool
  mimeType : String
  name : String
  size : Option Int
  url : Option String
  width : Option Int
  height : Option Int
deriving DecidableEq

/-- `classifyDiscordAttachment(attachment)`. -/
def classifyDiscordAttachment (a : RawAttachment) : ClassifiedAttachment :=
  let name := jsOrOpt a.name ""
  let providedMime := (a.contentType).getD ""
  let ext := regexExt name
  let hasMime := jsStartsWith providedMime "image/"
  let hasExt := ext ∈ IMAGE_EXTS
  let hasDimensions := a.width.isSome ∧ a.height.isSome
  let isImage := hasMime ∨ hasExt ∨ hasDimensions
  let mimeType := jsOr providedMime
    (if hasExt then extToMime name
     else if hasDimensions then "image/png"
     else jsOrOpt (mimeByExtension ext) "application/octet-stream")
  { isImage := isImage
    mimeType := mimeType
    name := name
    size := a.size
    url := jsOrOpt2 a.url a.proxyURL
    width := a.width
    height := a.height }

/-- `normalizeMimeType(name, mimeType)` of the main module: the declared MIME
when truthy, else the extension-table entry, else `application/octet-stream`. -/
def normalizeMimeType (name mimeType : String) : String :=
  jsOr mimeType (jsOrOpt (mimeByExtension (extnameLower name)) "application/octet-stream")

/-- `isTextLikeAttachment(name, mimeType)`. -/
def isTextLikeAttachment (name mimeType : String) : Bool :=
  jsStartsWith mimeType "text/" ∨ extnameLower name ∈ TEXT_EXTS ∨
    mimeType = "application/json" ∨ mimeType = "application/xml"

/-- The retry loop of `fetchAsBuffer`.  `oracle i` is the outcome of attempt
`i`; `left` is the number of retries still allowed (`attempt < RETRY_ATTEMPTS`
is exactly `left > 0`); `waits` accumulates the back-off delays issued so far.
Returns the final outcome, the index of the last attempt made, and the
delays. -/
def fetchLoop (oracle : ℕ → Except E Buf) : ℕ → ℕ → List ℕ → Except E Buf × ℕ × List ℕ
  | 0, attempt, waits =>
      (match oracle attempt with
       | .ok b => (.ok b, attempt, waits)
       | .error e => (.error e, attempt, waits))
  | left + 1, attempt, waits =>
      match oracle attempt with
      | .ok b => (.ok b, attempt, waits)
      | .error e =>
          let _ := e
          fetchLoop oracle left (attempt + 1) (waits ++ [RETRY_DELAY_MS * attempt])

/-- `fetchAsBuffer(url)` over the per-attempt outcome oracle: attempts start
at 1, at most `RETRY_ATTEMPTS`, with a wait of `attempt * RETRY_DELAY_MS`
after each failed non-final attempt; the last error is rethrown unchanged. -/
def fetchAsBuffer (oracle : ℕ → Except E Buf) : Except E Buf × ℕ × List ℕ :=
  fetchLoop oracle (RETRY_ATTEMPTS - 1) 1 []

/-- The size the inline decision uses: the declared size when it is a finite
positive number, otherwise the measured buffer length
(`Number.isFinite(size) && size > 0 ? size : buffer.length`). -/
def actualSize (size : Option Int) (buffer : Buf) : Int :=
  match size with
  | some s => if 0 < s then s else (buffer.length : Int)
  | none => (buffer.length : Int)

/-- `maybeInlineImage({buffer, mimeType, size, maxInlineSize})`: an inline
part when the MIME is image-like and the size fits, `null` otherwise. -/
def maybeInlineImage (codec : Codec) (buffer : Buf) (mimeType : String)
    (size : Option Int) (maxInlineSize : ℕ) : Option Part :=
  if ¬ jsStartsWith mimeType "image/" then none
  else if (maxInlineSize : Int) < actualSize size buffer then none
  else some (.inlineData mimeType (codec.base64 buffer))

/-- Decimal digits of a natural number (fuel-based so that it reduces in the
kernel; the fuel bound `n + 1` always suffices). -/
def natDigits : ℕ → ℕ → List Char
  | 0, _ => []
  | fuel + 1, n =>
      if n < 10 then [Char.ofNat (48 + n)]
      else natDigits fuel (n / 10) ++ [Char.ofNat (48 + n % 10)]

/-- Decimal rendering of a natural number. -/
def natToStr (n : ℕ) : String :=
  String.mk (natDigits (n + 1) n)

/-- `formatSize(bytes)`: human-readable base-1024 size.  The JS code computes
the exponent with `Math.floor(Math.log(bytes)/Math.log(1024))` capped at 3
and renders with `toFixed`; the model computes the same exponent by exact
comparison and rounds the displayed value half-up in exact arithmetic (the
float rounding of `toFixed` is not modelled; no claim inspects these
digits). -/
def formatSize (bytes : Option Int) : String :=
  match bytes with
  | none => "unknown size"
  | some b =>
      if b < 0 then "unknown size"
      else if b = 0 then "0 B"
      else
        let n := b.toNat
        let exponent := if n < 1024 then 0 else if n < 1024 ^ 2 then 1
          else if n < 1024 ^ 3 then 2 else 3
        let unit := match exponent with
          | 0 => "B" | 1 => "KB" | 2 => "MB" | _ => "GB"
        let p := 1024 ^ exponent
        if n < 10 * p ∧ 0 < exponent then
          let v10 := (n * 10 * 2 + p) / (2 * p)
          natToStr (v10 / 10) ++ "." ++ natToStr (v10 % 10) ++ " " ++ unit
        else
          natToStr ((n * 2 + p) / (2 * p)) ++ " " ++ unit

/-- `generateTempFilePath(name)`: the name, or a random fallback, sanitized
to `[a-zA-Z0-9_.-]`.  `randomHex` stands for
`crypto.randomBytes(6).toString('hex')`. -/
def generateTempFilePath (randomHex : String) (name : Option String) : String :=
  let safeName := jsOrOpt name ("upload-" ++ randomHex)
  String.mk (safeName.toList.map (fun c =>
    if ('a' ≤ c ∧ c ≤ 'z') ∨ ('A' ≤ c ∧ c ≤ 'Z') ∨ ('0' ≤ c ∧ c ≤ '9') ∨
        c = '_' ∨ c = '.' ∨ c = '-' then c else '_'))

/-- Fields of the remote upload response that the code probes
(`name`/`uri`/`fileUri`/`mimeType`; absent fields are `none`). -/
structure UploadFileMeta where
  fname : Option String
  uri : Option String
  fileUri : Option String
  fmimeType : Option String

/-- `uploadResponse?.file ?? uploadResponse`: the response either wraps the
file object in a `file` field or is the file object itself. -/
structure UploadResponse where
  file : Option UploadFileMeta
  direct : UploadFileMeta

/-- An error of the upload call: the explicit `throw new Error(...)`s, a
filesystem error (with its `code`), or a remote-API failure. -/
inductive UploadErr where
  | msg (s : String)
  | fs (code : Option String)
  | api (s : String)
deriving DecidableEq

/-- The filesystem / remote-API actions `uploadToGeminiFileAPI` performs, in
order, used to state the cleanup guarantee. -/
inductive FsEvent where
  | mkdtemp
  | writeFile (path : String)
  | uploadCall (path : String)
  | unlink (path : String)
  | rmdir (dir : String)
deriving DecidableEq

/-- The environment of one upload call: outcomes of `mkdtemp`, `writeFile`,
the remote upload, and the two cleanup calls, plus the names the runtime
picks. -/
structure UploadEnv where
  tmpDirName : String
  randomHex : String
  mkdtempFails : Option (Option String)
  writeFails : Option (Option String)
  uploadResult : Except String UploadResponse
  unlinkFails : Option (Option String)
  rmFails : Option (Option String)

/-- `uploadToGeminiFileAPI({buffer, mimeType, name, apiKey})`, returning the
result and the trace of filesystem/API actions issued.  The `finally` block
runs on every exit of the `try` body; its own errors are caught and logged,
never rethrown.  Note that a `writeFile` failure happens before the `try`,
so no cleanup runs on that path. -/
def uploadToGeminiFileAPI (env : UploadEnv) (mimeType : String)
    (name apiKey : Option String) : Except UploadErr Part × List FsEvent :=
  if ¬ jsTruthy apiKey then
    (.error (.msg "Missing Gemini API key for file upload."), [])
  else
    match env.mkdtempFails with
    | some code => (.error (.fs code), [.mkdtemp])
    | none =>
        let tmpDir := env.tmpDirName
        let fileName := generateTempFilePath env.randomHex name
        let filePath := tmpDir ++ "/" ++ fileName
        match env.writeFails with
        | some code => (.error (.fs code), [.mkdtemp, .writeFile filePath])
        | none =>
            let body : Except UploadErr Part :=
              match env.uploadResult with
              | .error s => .error (.api s)
              | .ok resp =>
                  let uploadedFile := resp.file.getD resp.direct
                  match jsOrOpt2 uploadedFile.fname
                      (jsOrOpt2 uploadedFile.uri uploadedFile.fileUri) with
                  | some fileHandle =>
                      if jsTruthy (some fileHandle) then
                        .ok (.fileData fileHandle
                          (jsOr mimeType
                            (jsOrOpt uploadedFile.fmimeType "application/octet-stream")))
                      else .error (.msg "Upload response did not include a file URI.")
                  | none => .error (.msg "Upload response did not include a file URI.")
            (body, [.mkdtemp, .writeFile filePath, .uploadCall filePath,
                    .unlink filePath, .rmdir tmpDir])

/-!
### `buildGeminiParts` of the main module

The loop bodies are per-item pure functions returning the parts the item
appends; the `try`/`catch` around each body is modelled by the `Except`
outcomes of the item's effects (a thrown error lands in the `catch`, which
appends the notice part — any parts pushed before the throw remain).
-/

/-- The image-list items as the builder reads them
(`image.url/.name/.size/.mimeType`). -/
structure BuildImage where
  url : Option String
  name : String
  size : Option Int
  mimeType : String
deriving DecidableEq

/-- The file-list items as the builder reads them. -/
structure BuildFile where
  url : Option String
  name : String
  mimeType : String
deriving DecidableEq

/-- A successful `uploadToGeminiFileAPI` call yields
`{fileData:{fileUri, mimeType}}`. -/
structure FileRef where
  uri : String
  mimeType : String
deriving DecidableEq

deriving instance DecidableEq for Except

/-- Outcomes of the effects one attachment's processing may perform:
`fetch` is the `fetchAsBuffer` result, `upload` the `uploadToGeminiFileAPI`
result (only consulted when the code reaches that call). -/
structure ItemOutcome where
  fetch : Except Unit Buf
  upload : Except Unit FileRef
deriving DecidableEq

/-- The label `image.name || 'image attachment'`. -/
def imageLabel (name : String) : String :=
  jsOr name "image attachment"

/-- The catch-all notice of the image loop. -/
def imageFailNotice (name : String) : Part :=
  .text ("Attached image could not be processed (" ++ imageLabel name ++ ").")

/-- The no-credential notice of the image loop. -/
def imageTooLargeNotice (name mimeType : String) : Part :=
  .text ("Attached image " ++ name ++ " (" ++ mimeType ++
    ") was too large to inline and could not be uploaded.")

/-- One iteration of the image loop: the parts it appends. -/
def imageParts (codec : Codec) (apiKey : Option String) (maxInlineSize : ℕ)
    (item : BuildImage × ItemOutcome) : List Part :=
  let image := item.1
  if ¬ jsTruthy image.url then []
  else
    match item.2.fetch with
    | .error _ => [imageFailNotice image.name]
    | .ok buffer =>
        let mimeType := jsOr image.mimeType
          (jsOr (normalizeMimeType image.name image.mimeType) "image/png")
        match maybeInlineImage codec buffer mimeType image.size maxInlineSize with
        | some part => [part]
        | none =>
            if ¬ jsTruthy apiKey then [imageTooLargeNotice image.name mimeType]
            else
              match item.2.upload with
              | .ok fr => [.fileData fr.uri fr.mimeType]
              | .error _ => [imageFailNotice image.name]

/-- The label `file.name || 'file attachment'`. -/
def fileLabel (name : String) : String :=
  jsOr name "file attachment"

/-- The catch-all notice of the file loop. -/
def fileFailNotice (name mimeType : String) : Part :=
  .text ("Attached file received but preview unavailable: " ++ fileLabel name ++
    " (" ++ jsOr mimeType "unknown type" ++ ").")

/-- The unconditional leading parts of one file-loop iteration once the fetch
succeeded: the descriptor text part, followed by the decoded contents when the
file is text-like and small enough (`name` is the raw `file.name`, `mimeType`
the already-resolved MIME). -/
def fileBaseParts (codec : Codec) (name mimeType : String) (buffer : Buf) : List Part :=
  let size := buffer.length
  let label := fileLabel name
  let descriptor := label ++ " (" ++ mimeType ++ ", " ++
    formatSize (some (size : Int)) ++ ")"
  [Part.text ("Attached file: " ++ descriptor ++ ".")] ++
    (if isTextLikeAttachment name mimeType ∧ size ≤ INLINE_LIMIT_TEXT_BYTES then
      [Part.text ("Contents of " ++ label ++
        " (truncated to 1048576 bytes if necessary):\n\n" ++ codec.utf8 buffer)]
     else [])

/-- One iteration of the file loop: the parts it appends.  A failing upload
is caught by the loop's `catch` after the descriptor (and possibly the text
contents) were already pushed. -/
def fileParts (codec : Codec) (apiKey : Option String)
    (item : BuildFile × ItemOutcome) : List Part :=
  let file := item.1
  if ¬ jsTruthy file.url then []
  else
    match item.2.fetch with
    | .error _ => [fileFailNotice file.name file.mimeType]
    | .ok buffer =>
        let mimeType := jsOr file.mimeType
          (jsOr (normalizeMimeType file.name "") "application/octet-stream")
        let base := fileBaseParts codec file.name mimeType buffer
        if jsTruthy apiKey then
          match item.2.upload with
          | .ok fr => base ++ [.fileData fr.uri fr.mimeType]
          | .error _ => base ++ [fileFailNotice file.name file.mimeType]
        else base

/-- `buildGeminiParts({text, images, files, apiKey, maxInlineSize})` of the
main module.  `text = none` models a non-string `text` argument
(`typeof text === 'string'` fails). -/
def buildGeminiParts (codec : Codec) (text : Option String)
    (images : List (BuildImage × ItemOutcome)) (files : List (BuildFile × ItemOutcome))
    (apiKey : Option String) (maxInlineSize : ℕ) : List Part :=
  let safeText := text.getD ""
  let parts := [Part.text safeText] ++
    images.flatMap (imageParts codec apiKey maxInlineSize) ++
    files.flatMap (fileParts codec apiKey)
  if parts = [] then [Part.text ""] else parts

end Attach

/-!
## Attachment pipeline, Fuku variant (`src/bots/Fuku/utils/attachments.js`)

Same shapes as the main module (`Attach.Part`, `Attach.Codec`,
`Attach.ItemOutcome`, …), but: the leading text part is emitted only when the
trimmed text is nonempty, the image inline ceiling is the fixed
`INLINE_LIMIT_IMAGE_BYTES` (8MB), `normalizeMimeType` falls back to the empty
string, the image loops do not skip URL-less items, and a missing `apiKey`
makes the image upload throw (caught as the generic notice) instead of the
dedicated "too large" notice.
-/

namespace Fuku

open Attach (Buf Codec Part BuildImage BuildFile ItemOutcome FileRef
  imageLabel imageFailNotice fileLabel fileFailNotice formatSize natToStr
  INLINE_LIMIT_TEXT_BYTES extnameLower)

/-- `INLINE_LIMIT_IMAGE_BYTES = 8 * 1024 * 1024`. -/
def INLINE_LIMIT_IMAGE_BYTES : ℕ := 8388608

/-- `IMAGE_EXTS` of the Fuku variant (smaller than the main module's). -/
def IMAGE_EXTS : List String := [".png", ".jpg", ".jpeg", ".webp", ".gif"]

/-- `MIME_BY_EXTENSION` of the Fuku variant (no `.tif` / `.heic`). -/
def mimeByExtension (ext : String) : Option String :=
  match ext with
  | ".png" => some "image/png"
  | ".jpg" => some "image/jpeg"
  | ".jpeg" => some "image/jpeg"
  | ".webp" => some "image/webp"
  | ".gif" => some "image/gif"
  | ".bmp" => some "image/bmp"
  | ".tiff" => some "image/tiff"
  | ".svg" => some "image/svg+xml"
  | ".pdf" => some "application/pdf"
  | ".txt" => some "text/plain"
  | ".md" => some "text/markdown"
  | ".csv" => some "text/csv"
  | ".json" => some "application/json"
  | ".xml" => some "application/xml"
  | ".log" => some "text/plain"
  | ".yaml" => some "application/x-yaml"
  | ".yml" => some "application/x-yaml"
  | _ => none

/-- `normalizeMimeType(name, mimeType)` of the Fuku variant: falls back to
`''` (not `application/octet-stream`). -/
def normalizeMimeType (name mimeType : String) : String :=
  jsOr mimeType (jsOrOpt (mimeByExtension (extnameLower name)) "")

/-- `isImageAttachment(name, mimeType)`. -/
def isImageAttachment (name mimeType : String) : Bool :=
  extnameLower name ∈ IMAGE_EXTS ∨ jsStartsWith mimeType "image/"

/-- `maybeInlineImage({buffer, mimeType, size})` with the fixed 8MB ceiling
(`typeof size === 'number' && size > 0 ? size : buffer.length`). -/
def maybeInlineImage (codec : Codec) (buffer : Buf) (mimeType : String)
    (size : Option Int) : Option Part :=
  if ¬ jsStartsWith mimeType "image/" then none
  else if (INLINE_LIMIT_IMAGE_BYTES : Int) < Attach.actualSize size buffer then none
  else some (.inlineData mimeType (codec.base64 buffer))

/-- One iteration of the Fuku image loop.  When the inline path is refused
and `apiKey` is falsy, `uploadToGeminiFileAPI` throws its missing-key error,
which the loop's `catch` renders as the generic notice. -/
def imageParts (codec : Codec) (apiKey : Option String)
    (item : BuildImage × ItemOutcome) : List Part :=
  let image := item.1
  match item.2.fetch with
  | .error _ => [imageFailNotice image.name]
  | .ok buffer =>
      let mimeType := jsOr image.mimeType (normalizeMimeType image.name "")
      match maybeInlineImage codec buffer (jsOr mimeType "image/png") image.size with
      | some part => [part]
      | none =>
          if ¬ jsTruthy apiKey then [imageFailNotice image.name]
          else
            match item.2.upload with
            | .ok fr => [.fileData fr.uri fr.mimeType]
            | .error _ => [imageFailNotice image.name]

/-- One iteration of the Fuku file loop (no URL check; `normalizeMimeType`
falls back to `''`, restored to `application/octet-stream` by the caller's
`||`). -/
def fileParts (codec : Codec) (apiKey : Option String)
    (item : BuildFile × ItemOutcome) : List Part :=
  let file := item.1
  match item.2.fetch with
  | .error _ => [fileFailNotice file.name file.mimeType]
  | .ok buffer =>
      let mimeType := jsOr file.mimeType
        (jsOr (normalizeMimeType file.name "") "application/octet-stream")
      let base := Attach.fileBaseParts codec file.name mimeType buffer
      if jsTruthy apiKey then
        match item.2.upload with
        | .ok fr => base ++ [.fileData fr.uri fr.mimeType]
        | .error _ => base ++ [fileFailNotice file.name file.mimeType]
      else base

/-- `buildGeminiParts({text, images, files, apiKey})` of the Fuku variant:
the leading text part is pushed only when `safeText.trim().length > 0`. -/
def buildGeminiParts (codec : Codec) (text : Option String)
    (images : List (BuildImage × ItemOutcome)) (files : List (BuildFile × ItemOutcome))
    (apiKey : Option String) : List Part :=
  let safeText := text.getD ""
  let headPart := if (jsTrim safeText).toList ≠ [] then [Part.text safeText] else []
  let parts := headPart ++
    images.flatMap (imageParts codec apiKey) ++
    files.flatMap (fileParts codec apiKey)
  if parts = [] then [Part.text ""] else parts

end Fuku

/-- A trivial codec instance, used to instantiate theorems at concrete
inputs. -/
def trivCodec : Attach.Codec := ⟨fun _ => "", fun _ => ""⟩

/-- The JS number `2.7` as an exact rational. -/
def jsNum2p7 : ℚ := ⟨27, 10, by decide, by decide⟩

/-- A concrete oversized image descriptor (9MB declared `image/png`). -/
def exImage : Attach.BuildImage := ⟨some "u", "a.png", some 9000000, "image/png"⟩

/-- A concrete outcome: the fetch returns one byte, the upload (never
reached or failing) errors. -/
def exOutcome : Attach.ItemOutcome := ⟨.ok [0], .error ()⟩

/-!
## Helper lemmas
-/

theorem strToList_eq_nil_iff (s : String) : s.toList = [] ↔ s = "" := by
  constructor
  · intro h
    cases s with
    | mk data =>
        simp only [String.toList] at h
        rw [h]
  · intro h
    rw [h]
    rfl

theorem jsOr_of_ne_nil {a : String} (b : String) (h : a ≠ "") : jsOr a b = a := by
  unfold jsOr
  rw [if_neg]
  rw [strToList_eq_nil_iff]
  exact h

theorem jsOr_nil (b : String) : jsOr "" b = b := by
  unfold jsOr
  rw [if_pos]
  rfl

namespace Store

theorem lastN_nil (n : ℕ) : lastN n ([] : List α) = [] := by
  simp [lastN]

theorem lastN_of_le {l : List α} {n : ℕ} (h : l.length ≤ n) : lastN n l = l := by
  unfold lastN
  rw [Nat.sub_eq_zero_of_le h, List.drop_zero]

theorem length_lastN (n : ℕ) (l : List α) :
    (lastN n l).length = l.length - (l.length - n) := by
  simp [lastN]

theorem lastN_append (n : ℕ) (xs ys : List α) :
    lastN n (lastN n xs ++ ys) = lastN n (xs ++ ys) := by
  rcases le_or_lt xs.length n with h | h
  · rw [lastN_of_le h]
  · have hj : xs.length - n ≤ xs.length := Nat.sub_le _ _
    unfold lastN
    rw [← List.drop_append_of_le_length hj, List.drop_drop]
    congr 1
    simp only [List.length_drop, List.length_append]
    omega

theorem lastN_idem (n : ℕ) (l : List α) : lastN n (lastN n l) = lastN n l :=
  lastN_of_le (by simp only [length_lastN]; omega)

theorem lastN_sublist (n : ℕ) (l : List α) : (lastN n l).Sublist l :=
  (List.drop_suffix _ _).sublist

theorem map_lastN (f : α → β) (n : ℕ) (l : List α) :
    (lastN n l).map f = lastN n (l.map f) := by
  simp [lastN, List.map_drop]

theorem foldl_memStep (keep : ℕ) (L : List HistoryEntry) :
    ∀ acc : List HistoryEntry,
      L.foldl (memStep keep) (lastN keep acc) = lastN keep (acc ++ L) := by
  induction L with
  | nil => intro acc; simp
  | cons e L ih =>
      intro acc
      have hstep : memStep keep (lastN keep acc) e = lastN keep (acc ++ [e]) := by
        unfold memStep
        exact lastN_append keep acc [e]
      calc (e :: L).foldl (memStep keep) (lastN keep acc)
          = L.foldl (memStep keep) (lastN keep (acc ++ [e])) := by
            rw [List.foldl_cons, hstep]
        _ = lastN keep ((acc ++ [e]) ++ L) := ih (acc ++ [e])
        _ = lastN keep (acc ++ e :: L) := by rw [List.append_assoc]; rfl

theorem pushMessageMem_key (s : MemStore) (u : String) (g c : Option String)
    (role content : String) (ts : ℕ) (keep : Option ℚ) (dk : ℕ) :
    pushMessageMem s u g c role content ts keep dk (getMemoryKey u g c)
      = memStep (normalizeCount keep dk) (s (getMemoryKey u g c)) ⟨role, content, ts⟩ := by
  simp [pushMessageMem, memStep]

theorem pushAllMem_key (items : List PushItem) :
    ∀ (s : MemStore) (u : String) (g c : Option String) (keep : Option ℚ) (dk : ℕ),
      pushAllMem s u g c items keep dk (getMemoryKey u g c)
        = (items.map itemEntry).foldl (memStep (normalizeCount keep dk))
            (s (getMemoryKey u g c)) := by
  induction items with
  | nil => intro s u g c keep dk; rfl
  | cons it rest ih =>
      intro s u g c keep dk
      have h1 : pushAllMem s u g c (it :: rest) keep dk
          = pushAllMem (pushMessageMem s u g c it.role it.content it.ts keep dk)
              u g c rest keep dk := rfl
      rw [h1, ih, pushMessageMem_key]
      rfl

end Store

namespace Store

theorem normalizeCount_twenty (dk : ℕ) : normalizeCount (some 20) dk = 20 := by
  have h20 : jsParseInt (20 : ℚ) = 20 := by
    unfold jsParseInt
    rw [Rat.num_ofNat, Rat.den_ofNat, Nat.cast_one, Int.tdiv_one]
  simp [normalizeCount, h20]

theorem beforeDesc_eq_false_of_ascRel {a b : SqlRow} (h : ascRel a b) :
    beforeDesc a b = false := by
  unfold beforeDesc
  rw [decide_eq_false_iff_not]
  unfold ascRel at h
  omega

theorem insertDesc_eq_append (r : SqlRow) :
    ∀ l : List SqlRow, (∀ y ∈ l, beforeDesc r y = false) → insertDesc r l = l ++ [r] := by
  intro l
  induction l with
  | nil => intro _; rfl
  | cons x xs ih =>
      intro h
      have hx := h x (List.mem_cons_self x xs)
      simp only [insertDesc, hx, Bool.false_eq_true, if_false]
      rw [ih (fun y hy => h y (List.mem_cons_of_mem x hy))]
      rfl

theorem sortDesc_of_pairwise_ascRel :
    ∀ {l : List SqlRow}, l.Pairwise ascRel → sortDesc l = l.reverse := by
  intro l
  induction l with
  | nil => intro _; rfl
  | cons x xs ih =>
      intro h
      rw [List.pairwise_cons] at h
      have h1 : sortDesc (x :: xs) = insertDesc x (sortDesc xs) := rfl
      rw [h1, ih h.2, insertDesc_eq_append x xs.reverse
        (fun y hy => beforeDesc_eq_false_of_ascRel (h.1 y (List.mem_reverse.mp hy)))]
      rw [List.reverse_cons]

theorem mem_insertDesc {a r : SqlRow} :
    ∀ {l : List SqlRow}, a ∈ insertDesc r l ↔ a = r ∨ a ∈ l := by
  intro l
  induction l with
  | nil => simp [insertDesc]
  | cons x xs ih =>
      by_cases hb : beforeDesc r x = true
      · simp only [insertDesc, hb, if_true, List.mem_cons]
        try tauto
      · simp only [insertDesc, hb, Bool.false_eq_true, if_false, List.mem_cons, ih]
        try tauto

theorem mem_sortDesc {a : SqlRow} : ∀ {l : List SqlRow}, a ∈ sortDesc l ↔ a ∈ l := by
  intro l
  induction l with
  | nil => simp [sortDesc]
  | cons x xs ih =>
      have h1 : sortDesc (x :: xs) = insertDesc x (sortDesc xs) := rfl
      rw [h1, mem_insertDesc, List.mem_cons, ih]
      try tauto

/-- Filtering an append by "rowid not among the first block's rowids" keeps
exactly the second block, when rowids do not repeat across the blocks. -/
theorem filter_append_not_mem_fst (T D : List SqlRow)
    (hdisj : (T.map (fun r => r.rowid)).Disjoint (D.map (fun r => r.rowid))) :
    (T ++ D).filter (fun r => ¬ r.rowid ∈ T.reverse.map (fun v => v.rowid)) = D := by
  rw [List.filter_append]
  have h1 : T.filter (fun r => ¬ r.rowid ∈ T.reverse.map (fun v => v.rowid)) = [] := by
    rw [List.filter_eq_nil_iff]
    intro t ht
    simp only [List.map_reverse, List.mem_reverse, List.mem_map, decide_eq_true_eq,
      Decidable.not_not]
    exact ⟨t, ht, rfl⟩
  have h2 : D.filter (fun r => ¬ r.rowid ∈ T.reverse.map (fun v => v.rowid)) = D := by
    rw [List.filter_eq_self]
    intro d hd
    simp only [List.map_reverse, List.mem_reverse, List.mem_map, decide_eq_true_eq]
    rintro ⟨t, ht, hrid⟩
    exact hdisj (List.mem_map.mpr ⟨t, ht, rfl⟩) (List.mem_map.mpr ⟨d, hd, hrid.symm⟩)
  rw [h1, h2, List.nil_append]

/-- The trim step on a list already restricted to the key: with unique rowids
and ascending rows, deleting the rows ranked `≥ keep` in descending order
keeps exactly the newest `keep` rows, in their original order. -/
theorem filter_trim_self (M₁ : List SqlRow) (keep : ℕ)
    (hnd : (M₁.map (fun r => r.rowid)).Nodup) (hasc : M₁.Pairwise ascRel) :
    M₁.filter
        (fun r => ¬ r.rowid ∈ ((sortDesc M₁).drop keep).map (fun v => v.rowid))
      = lastN keep M₁ := by
  rw [sortDesc_of_pairwise_ascRel hasc, List.drop_reverse]
  have hTD : M₁.take (M₁.length - keep) ++ M₁.drop (M₁.length - keep) = M₁ :=
    List.take_append_drop _ _
  have hnd2 :
      (((M₁.take (M₁.length - keep)) ++ (M₁.drop (M₁.length - keep))).map
        (fun r => r.rowid)).Nodup := by
    rw [hTD]; exact hnd
  rw [List.map_append, List.nodup_append] at hnd2
  have key := filter_append_not_mem_fst (M₁.take (M₁.length - keep))
    (M₁.drop (M₁.length - keep)) hnd2.2.2
  rw [hTD] at key
  exact key

end Store

namespace Store

theorem matchKey_mk (u : String) (g c : Option String) (n : ℕ) (role content : String)
    (ts : ℕ) : matchKey u g c ⟨n, u, g, c, role, content, ts⟩ = true := by
  simp [matchKey]

/-- Effect of one SQLite `pushMessage` on the rows of its own key: the new
row is appended and the key is trimmed to the newest `keep` rows; the
invariants (well-formed db, ascending key rows, timestamp bound) are
preserved. -/
theorem pushMessageSql_step (db : SqlDb) (u : String) (g c : Option String)
    (role content : String) (ts : ℕ) (keep : Option ℚ) (dk : ℕ)
    (hwf : db.WF)
    (hasc : (db.rows.filter (matchKey u g c)).Pairwise ascRel)
    (hts : ∀ r ∈ db.rows.filter (matchKey u g c), r.ts ≤ ts) :
    (pushMessageSql db u g c role content ts keep dk).rows.filter (matchKey u g c)
        = lastN (normalizeCount keep dk)
            (db.rows.filter (matchKey u g c) ++ [⟨db.nextRowid, u, g, c, role, content, ts⟩])
      ∧ (pushMessageSql db u g c role content ts keep dk).WF
      ∧ ((pushMessageSql db u g c role content ts keep dk).rows.filter
          (matchKey u g c)).Pairwise ascRel
      ∧ ∀ r ∈ (pushMessageSql db u g c role content ts keep dk).rows.filter
          (matchKey u g c), r.ts ≤ ts := by
  set newRow : SqlRow := ⟨db.nextRowid, u, g, c, role, content, ts⟩ with hnew
  set M := db.rows.filter (matchKey u g c) with hM
  set keep' := normalizeCount keep dk with hkeep
  set db1 := insertSql db u g c role content ts with hdb1
  -- rows of the key after the insert
  have hins : db1.rows.filter (matchKey u g c) = M ++ [newRow] := by
    rw [hdb1]
    simp only [insertSql, List.filter_append, List.filter_cons, matchKey_mk, if_true,
      List.filter_nil]
  -- rowid facts
  have hMsub : M.Sublist db.rows := by rw [hM]; exact List.filter_sublist _
  have hndM : (M.map (fun r => r.rowid)).Nodup :=
    List.Nodup.sublist (hMsub.map _) hwf.1
  have hMlt : ∀ r ∈ M, r.rowid < db.nextRowid := fun r hr =>
    hwf.2 r (hMsub.mem hr)
  have hMts : ∀ r ∈ M, r.ts ≤ ts := by rw [hM]; exact hts
  have hndM1 : ((M ++ [newRow]).map (fun r => r.rowid)).Nodup := by
    rw [List.map_append, List.nodup_append]
    refine ⟨hndM, List.nodup_singleton _, ?_⟩
    intro a ha hb
    simp only [List.map_cons, List.map_nil, List.mem_singleton] at hb
    rw [List.mem_map] at ha
    obtain ⟨r, hr, hra⟩ := ha
    have := hMlt r hr
    omega
  have hascM1 : (M ++ [newRow]).Pairwise ascRel := by
    rw [List.pairwise_append]
    refine ⟨hasc, List.pairwise_singleton _ _, ?_⟩
    intro r hr b hb
    rw [List.mem_singleton] at hb
    subst hb
    have h1 := hMts r hr
    have h2 := hMlt r hr
    unfold ascRel
    simp only [hnew]
    omega
  -- the insert keeps the database well-formed
  have hwf1 : db1.WF := by
    constructor
    · rw [hdb1]
      simp only [insertSql, List.map_append, List.map_cons, List.map_nil]
      rw [List.nodup_append]
      refine ⟨hwf.1, List.nodup_singleton _, ?_⟩
      intro a ha hb
      simp only [List.mem_singleton] at hb
      rw [List.mem_map] at ha
      obtain ⟨r, hr, hra⟩ := ha
      have := hwf.2 r hr
      omega
    · intro r hr
      rw [hdb1] at hr ⊢
      simp only [insertSql, List.mem_append, List.mem_singleton] at hr
      simp only [insertSql]
      rcases hr with hr | hr
      · have := hwf.2 r hr
        omega
      · subst hr
        simp only [hnew]
        omega
  -- the trim deletes exactly the older surplus of the key
  have htrim : (pushMessageSql db u g c role content ts keep dk).rows.filter
      (matchKey u g c) = lastN keep' (M ++ [newRow]) := by
    show (trimSql db1 u g c keep').rows.filter (matchKey u g c) = _
    simp only [trimSql]
    rw [List.filter_comm, hins, filter_trim_self _ _ hndM1 hascM1]
  have hsub' : (pushMessageSql db u g c role content ts keep dk).rows.Sublist db1.rows := by
    show (trimSql db1 u g c keep').rows.Sublist db1.rows
    simp only [trimSql]
    exact List.filter_sublist _
  refine ⟨htrim, ⟨?_, ?_⟩, ?_, ?_⟩
  · exact List.Nodup.sublist (hsub'.map _) hwf1.1
  · intro r hr
    have hnext : (pushMessageSql db u g c role content ts keep dk).nextRowid
        = db1.nextRowid := rfl
    rw [hnext]
    exact hwf1.2 r (hsub'.mem hr)
  · rw [htrim]
    exact List.Pairwise.sublist (lastN_sublist _ _) hascM1
  · intro r hr
    rw [htrim] at hr
    have hr' := (lastN_sublist keep' (M ++ [newRow])).mem hr
    rw [List.mem_append, List.mem_singleton] at hr'
    rcases hr' with hr' | hr'
    · exact hMts r hr'
    · subst hr'
      simp [hnew]

end Store

namespace Store

/-- Iterated SQLite pushes for one key: the key's rows always hold the newest
`keep` of the pushed messages, in insertion order. -/
theorem pushAllSql_matched (u : String) (g c : Option String) (keep : Option ℚ) (dk : ℕ) :
    ∀ (items : List PushItem) (db : SqlDb),
      db.WF →
      (db.rows.filter (matchKey u g c)).Pairwise ascRel →
      (db.rows.filter (matchKey u g c)).length ≤ normalizeCount keep dk →
      (∀ r ∈ db.rows.filter (matchKey u g c), ∀ it ∈ items, r.ts ≤ it.ts) →
      items.Pairwise (fun x y => x.ts ≤ y.ts) →
      (pushAllSql db u g c items keep dk).WF ∧
        ((pushAllSql db u g c items keep dk).rows.filter (matchKey u g c)).Pairwise ascRel ∧
        ((pushAllSql db u g c items keep dk).rows.filter (matchKey u g c)).map rowEntry
          = lastN (normalizeCount keep dk)
              ((db.rows.filter (matchKey u g c)).map rowEntry ++ items.map itemEntry) := by
  intro items
  induction items with
  | nil =>
      intro db hwf hasc hlen _ _
      refine ⟨hwf, hasc, ?_⟩
      rw [List.map_nil, List.append_nil, lastN_of_le (by rw [List.length_map]; exact hlen)]
      rfl
  | cons it rest ih =>
      intro db hwf hasc hlen hcross hmono
      obtain ⟨hstep1, hstep2, hstep3, hstep4⟩ :=
        pushMessageSql_step db u g c it.role it.content it.ts keep dk hwf hasc
          (fun r hr => hcross r hr it (List.mem_cons_self it rest))
      rw [List.pairwise_cons] at hmono
      set db2 := pushMessageSql db u g c it.role it.content it.ts keep dk with hdb2
      have hfold : pushAllSql db u g c (it :: rest) keep dk
          = pushAllSql db2 u g c rest keep dk := rfl
      have hlen2 : (db2.rows.filter (matchKey u g c)).length ≤ normalizeCount keep dk := by
        rw [hstep1, length_lastN]
        omega
      have hcross2 : ∀ r ∈ db2.rows.filter (matchKey u g c), ∀ it' ∈ rest,
          r.ts ≤ it'.ts := fun r hr it' hit' =>
        le_trans (hstep4 r hr) (hmono.1 it' hit')
      obtain ⟨hw, ha, hm⟩ := ih db2 hstep2 hstep3 hlen2 hcross2 hmono.2
      rw [hfold]
      refine ⟨hw, ha, ?_⟩
      rw [hm, hstep1, map_lastN, lastN_append, List.map_append]
      have hone : (List.map rowEntry
          [(⟨db.nextRowid, u, g, c, it.role, it.content, it.ts⟩ : SqlRow)])
          = [itemEntry it] := rfl
      rw [hone, List.map_cons, List.append_assoc]
      rfl

/-- The SQLite backend round trip for one key, starting from a database with
no rows for that key and nondecreasing call timestamps. -/
theorem getLastMessagesSql_pushAll (u : String) (g c : Option String)
    (items : List PushItem) (db : SqlDb) (dk : ℕ)
    (hwf : db.WF) (hempty : db.rows.filter (matchKey u g c) = [])
    (hlen : items.length = 25)
    (hmono : items.Pairwise (fun x y => x.ts ≤ y.ts)) :
    getLastMessagesSql (pushAllSql db u g c items (some 20) dk) u g c (some 20) dk
      = (items.map itemEntry).drop 5 := by
  obtain ⟨_, hasc', hmap⟩ := pushAllSql_matched u g c (some 20) dk items db hwf
    (by rw [hempty]; exact List.Pairwise.nil)
    (by rw [hempty, normalizeCount_twenty]; exact Nat.zero_le _)
    (by rw [hempty]; intro r hr; cases hr)
    hmono
  rw [normalizeCount_twenty] at hmap
  rw [hempty] at hmap
  simp only [List.map_nil, List.nil_append] at hmap
  have hlenE : (items.map itemEntry).length = 25 := by rw [List.length_map, hlen]
  have hlast : lastN 20 (items.map itemEntry) = (items.map itemEntry).drop 5 := by
    unfold lastN
    rw [hlenE]
  rw [hlast] at hmap
  have hlenM : ((pushAllSql db u g c items (some 20) dk).rows.filter
      (matchKey u g c)).length = 20 := by
    have := congrArg List.length hmap
    rw [List.length_map] at this
    rw [this, List.length_drop, hlenE]
  unfold getLastMessagesSql
  rw [normalizeCount_twenty, sortDesc_of_pairwise_ascRel hasc',
    List.take_of_length_le (by rw [List.length_reverse, hlenM]),
    List.reverse_reverse, hmap]

/-- The in-memory backend round trip for one key, starting from an empty
bucket. -/
theorem getLastMessagesMem_pushAll (u : String) (g c : Option String)
    (items : List PushItem) (s : MemStore) (dk : ℕ)
    (hempty : s (getMemoryKey u g c) = []) (hlen : items.length = 25) :
    getLastMessagesMem (pushAllMem s u g c items (some 20) dk) u g c (some 20) dk
      = (items.map itemEntry).drop 5 := by
  unfold getLastMessagesMem
  rw [pushAllMem_key, hempty, normalizeCount_twenty]
  have h0 : ([] : List HistoryEntry) = lastN 20 [] := rfl
  rw [h0, foldl_memStep, List.nil_append, lastN_idem]
  unfold lastN
  rw [List.length_map, hlen]

end Store

namespace Store

theorem insertSql_WF (db : SqlDb) (u : String) (g c : Option String)
    (role content : String) (ts : ℕ) (hwf : db.WF) :
    (insertSql db u g c role content ts).WF := by
  constructor
  · simp only [insertSql, List.map_append, List.map_cons, List.map_nil]
    rw [List.nodup_append]
    refine ⟨hwf.1, List.nodup_singleton _, ?_⟩
    intro a ha hb
    simp only [List.mem_singleton] at hb
    rw [List.mem_map] at ha
    obtain ⟨r, hr, hra⟩ := ha
    have := hwf.2 r hr
    omega
  · intro r hr
    simp only [insertSql, List.mem_append, List.mem_singleton] at hr
    simp only [insertSql]
    rcases hr with hr | hr
    · have := hwf.2 r hr
      omega
    · subst hr
      show db.nextRowid < db.nextRowid + 1
      omega

/-- A row matching one key never matches a key with a different guild id. -/
theorem matchKey_ne_guild {u : String} {g g' c : Option String} {r : SqlRow}
    (hne : g ≠ g') (h : matchKey u g c r = true) : matchKey u g' c r = false := by
  simp only [matchKey, decide_eq_true_eq] at h
  simp only [matchKey, decide_eq_false_iff_not]
  rintro ⟨-, hg', -⟩
  exact hne (h.2.1 ▸ hg' ▸ rfl)

/-- Trimming the bucket of a key with a different guild id leaves the rows of
this key untouched (rowids are unique, so the deleted rowids all belong to
the other bucket). -/
theorem filter_trimSql_other (db : SqlDb) (u : String) (g g' c : Option String)
    (keep : ℕ) (hne : g ≠ g') (hwf : db.WF) :
    (trimSql db u g' c keep).rows.filter (matchKey u g c)
      = db.rows.filter (matchKey u g c) := by
  simp only [trimSql]
  rw [List.filter_comm]
  rw [List.filter_eq_self.mpr]
  intro r hr
  rw [List.mem_filter] at hr
  simp only [List.mem_map, decide_eq_true_eq]
  rintro ⟨v, hv, hvr⟩
  have hv2 := List.drop_subset _ _ hv
  rw [mem_sortDesc, List.mem_filter] at hv2
  have hveq : v = r := List.inj_on_of_nodup_map hwf.1 hv2.1 hr.1 hvr
  have := matchKey_ne_guild hne hr.2
  rw [← hveq, hv2.2] at this
  cases this

/-- Clearing the bucket of a key with a different guild id leaves the rows of
this key untouched. -/
theorem filter_clearHistorySql_other (db : SqlDb) (u : String) (g g' c : Option String)
    (hne : g ≠ g') :
    (clearHistorySql db u g' c).rows.filter (matchKey u g c)
      = db.rows.filter (matchKey u g c) := by
  simp only [clearHistorySql]
  rw [List.filter_comm]
  rw [List.filter_eq_self.mpr]
  intro r hr
  rw [List.mem_filter] at hr
  simp only [decide_eq_true_eq]
  rw [matchKey_ne_guild hne hr.2]
  intro h
  cases h

/-- A push to a key with a different guild id never changes the rows of this
key: the inserted row has the other guild id and the trim only deletes rows
of the other bucket. -/
theorem filter_pushMessageSql_other (db : SqlDb) (u : String) (g g' c : Option String)
    (role content : String) (ts : ℕ) (keep : Option ℚ) (dk : ℕ)
    (hne : g ≠ g') (hwf : db.WF) :
    (pushMessageSql db u g' c role content ts keep dk).rows.filter (matchKey u g c)
      = db.rows.filter (matchKey u g c) := by
  show (trimSql (insertSql db u g' c role content ts) u g' c
      (normalizeCount keep dk)).rows.filter (matchKey u g c) = _
  rw [filter_trimSql_other _ u g g' c _ hne (insertSql_WF db u g' c role content ts hwf)]
  simp only [insertSql, List.filter_append, List.filter_cons, List.filter_nil]
  rw [if_neg, List.append_nil]
  have : matchKey u g c ⟨db.nextRowid, u, g', c, role, content, ts⟩ = false := by
    simp only [matchKey, decide_eq_false_iff_not]
    rintro ⟨-, hg, -⟩
    exact hne (hg ▸ rfl)
  rw [this]
  intro h
  cases h

end Store

/-!
## Claim theorems
-/

/-- C2: for every conversation key, appending 25 messages via `pushMessage`
with `keep = 20` and reading back with `limit = 20` yields exactly messages
6..25 in original insertion (chronological, oldest-first) order, on both
backends.  The bucket starts empty; on the SQLite backend the observed
`Date.now()` timestamps are nondecreasing and the table is well-formed. -/
theorem c2_history_roundtrip (u : String) (g c : Option String)
    (items : List Store.PushItem) (s : Store.MemStore) (db : Store.SqlDb) (dk : ℕ)
    (hmem : s (Store.getMemoryKey u g c) = [])
    (hwf : db.WF) (hsql : db.rows.filter (Store.matchKey u g c) = [])
    (hlen : items.length = 25)
    (hmono : items.Pairwise (fun x y => x.ts ≤ y.ts)) :
    Store.getLastMessagesMem (Store.pushAllMem s u g c items (some 20) dk) u g c
        (some 20) dk = (items.map Store.itemEntry).drop 5
    ∧ Store.getLastMessagesSql (Store.pushAllSql db u g c items (some 20) dk) u g c
        (some 20) dk = (items.map Store.itemEntry).drop 5 :=
  ⟨Store.getLastMessagesMem_pushAll u g c items s dk hmem hlen,
   Store.getLastMessagesSql_pushAll u g c items db dk hwf hsql hlen hmono⟩

/-- Witness for C2 at a concrete run: user `"u"`, no guild/channel, messages
timestamped 0..24. -/
theorem c2_witness :
    Store.getLastMessagesMem
        (Store.pushAllMem (fun _ => []) "u" none none
          ((List.range 25).map (fun i => (⟨"user", "m", i⟩ : Store.PushItem)))
          (some 20) 20) "u" none none (some 20) 20
      = (((List.range 25).map (fun i => (⟨"user", "m", i⟩ : Store.PushItem))).map
          Store.itemEntry).drop 5
    ∧ Store.getLastMessagesSql
        (Store.pushAllSql Store.emptyDb "u" none none
          ((List.range 25).map (fun i => (⟨"user", "m", i⟩ : Store.PushItem)))
          (some 20) 20) "u" none none (some 20) 20
      = (((List.range 25).map (fun i => (⟨"user", "m", i⟩ : Store.PushItem))).map
          Store.itemEntry).drop 5 :=
  c2_history_roundtrip "u" none none _ (fun _ => []) Store.emptyDb 20 rfl
    (by constructor <;> decide) rfl (by decide) (by decide)

/-- C3 counterexample: in the in-memory backend a message pushed under a
`null` guild id is returned by a read under the empty-string guild id, so the
two are not distinct buckets there. -/
theorem c3_counterexample :
    Store.getLastMessagesMem
        (Store.pushMessageMem (fun _ => []) "u" none (some "ch") "user" "hello" 0 none 20)
        "u" (some "") (some "ch") none 20
      = [⟨"user", "hello", 0⟩]
    ∧ ([⟨"user", "hello", 0⟩] : List Store.HistoryEntry) ≠ [] := by
  refine ⟨by decide, by decide⟩

/-- C3 amended: in the SQLite backend the `null` and `""` guild ids are
distinct buckets (a push or clear under one never changes reads under the
other), but in the in-memory backend `getMemoryKey` maps `null` to `""`, so
they are literally the same bucket there. -/
theorem c3_amended_guild_buckets :
    (∀ (db : Store.SqlDb) (u : String) (c : Option String) (role content : String)
        (ts : ℕ) (keep lim : Option ℚ) (dk : ℕ), db.WF →
      Store.getLastMessagesSql
          (Store.pushMessageSql db u (some "") c role content ts keep dk) u none c lim dk
        = Store.getLastMessagesSql db u none c lim dk)
    ∧ (∀ (db : Store.SqlDb) (u : String) (c : Option String) (role content : String)
        (ts : ℕ) (keep lim : Option ℚ) (dk : ℕ), db.WF →
      Store.getLastMessagesSql
          (Store.pushMessageSql db u none c role content ts keep dk) u (some "") c lim dk
        = Store.getLastMessagesSql db u (some "") c lim dk)
    ∧ (∀ (db : Store.SqlDb) (u : String) (c : Option String) (lim : Option ℚ) (dk : ℕ),
      Store.getLastMessagesSql (Store.clearHistorySql db u (some "") c) u none c lim dk
        = Store.getLastMessagesSql db u none c lim dk)
    ∧ (∀ (db : Store.SqlDb) (u : String) (c : Option String) (lim : Option ℚ) (dk : ℕ),
      Store.getLastMessagesSql (Store.clearHistorySql db u none c) u (some "") c lim dk
        = Store.getLastMessagesSql db u (some "") c lim dk)
    ∧ (∀ (u : String) (c : Option String),
      Store.getMemoryKey u none c = Store.getMemoryKey u (some "") c)
    ∧ (∀ (s : Store.MemStore) (u : String) (c : Option String) (role content : String)
        (ts : ℕ) (keep : Option ℚ) (dk : ℕ),
      Store.pushMessageMem s u none c role content ts keep dk
        = Store.pushMessageMem s u (some "") c role content ts keep dk)
    ∧ (∀ (s : Store.MemStore) (u : String) (c : Option String),
      Store.clearHistoryMem s u none c = Store.clearHistoryMem s u (some "") c) := by
  have hne : (none : Option String) ≠ some "" := by simp
  have hne' : (some "" : Option String) ≠ none := by simp
  refine ⟨?_, ?_, ?_, ?_, ?_, ?_, ?_⟩
  · intro db u c role content ts keep lim dk hwf
    unfold Store.getLastMessagesSql
    rw [Store.filter_pushMessageSql_other db u none (some "") c role content ts keep dk
      hne hwf]
  · intro db u c role content ts keep lim dk hwf
    unfold Store.getLastMessagesSql
    rw [Store.filter_pushMessageSql_other db u (some "") none c role content ts keep dk
      hne' hwf]
  · intro db u c lim dk
    unfold Store.getLastMessagesSql
    rw [Store.filter_clearHistorySql_other db u none (some "") c hne]
  · intro db u c lim dk
    unfold Store.getLastMessagesSql
    rw [Store.filter_clearHistorySql_other db u (some "") none c hne']
  · intro u c
    rfl
  · intro s u c role content ts keep dk
    rfl
  · intro s u c
    rfl

/-- Witness for C3 amended: a push under guild `""` on the empty SQLite
database is invisible to a read under guild `null`. -/
theorem c3_witness :
    Store.getLastMessagesSql
        (Store.pushMessageSql Store.emptyDb "u" (some "") none "user" "m" 0 none 20)
        "u" none none none 20
      = Store.getLastMessagesSql Store.emptyDb "u" none none none 20 :=
  c3_amended_guild_buckets.1 Store.emptyDb "u" none "user" "m" 0 none none 20
    (by constructor <;> decide)

/-- C10 counterexample: a fractional `keep = 2.7` is truncated by `parseInt`
to 2 and used, rather than replaced by the default keep-count: after three
pushes with `keep = 2.7` only the newest 2 entries survive (the default 20
would have kept all 3). -/
theorem c10_counterexample :
    Store.normalizeCount (some jsNum2p7) 20 = 2
    ∧ Store.pushMessageMem
        (Store.pushMessageMem
          (Store.pushMessageMem (fun _ => []) "u" none none "user" "m1" 0
            (some jsNum2p7) 20)
          "u" none none "user" "m2" 1 (some jsNum2p7) 20)
        "u" none none "user" "m3" 2 (some jsNum2p7) 20 (Store.getMemoryKey "u" none none)
      = [⟨"user", "m2", 1⟩, ⟨"user", "m3", 2⟩]
    ∧ (2 : ℕ) ≠ 20 := by
  refine ⟨by decide, by decide, by decide⟩

/-- C10 amended: an absent or unparsable count and a count that truncates to
a non-positive integer fall back to the default keep-count (so pushes retain
the newest default-keep entries and reads return at most that many), but a
count that truncates to a positive integer is used truncated (`parseInt`),
not replaced by the default. -/
theorem c10_amended_normalize_count :
    (∀ dk : ℕ, Store.normalizeCount none dk = dk)
    ∧ (∀ (q : ℚ) (dk : ℕ), Store.jsParseInt q ≤ 0 →
        Store.normalizeCount (some q) dk = dk)
    ∧ (∀ (q : ℚ) (dk : ℕ), 0 < Store.jsParseInt q →
        Store.normalizeCount (some q) dk = (Store.jsParseInt q).toNat)
    ∧ (∀ (s : Store.MemStore) (u : String) (g c : Option String) (role content : String)
        (ts dk : ℕ),
        Store.pushMessageMem s u g c role content ts none dk (Store.getMemoryKey u g c)
          = Store.lastN dk (s (Store.getMemoryKey u g c) ++ [⟨role, content, ts⟩]))
    ∧ (∀ (s : Store.MemStore) (u : String) (g c : Option String) (dk : ℕ),
        Store.getLastMessagesMem s u g c none dk
          = Store.lastN dk (s (Store.getMemoryKey u g c)))
    ∧ (∀ (s : Store.MemStore) (u : String) (g c : Option String) (dk : ℕ),
        (Store.getLastMessagesMem s u g c none dk).length ≤ dk) := by
  refine ⟨fun dk => rfl, ?_, ?_, ?_, fun s u g c dk => rfl, ?_⟩
  · intro q dk h
    simp only [Store.normalizeCount]
    rw [if_neg (by omega)]
  · intro q dk h
    simp only [Store.normalizeCount]
    rw [if_pos h]
  · intro s u g c role content ts dk
    rw [Store.pushMessageMem_key]
    rfl
  · intro s u g c dk
    unfold Store.getLastMessagesMem
    rw [show Store.normalizeCount none dk = dk from rfl, Store.length_lastN]
    omega

/-- Witness for C10 amended: `keep = 0` falls back to the default 20, and
`keep = 2.7` truncates to 2. -/
theorem c10_witness :
    Store.jsParseInt 0 ≤ 0
    ∧ Store.normalizeCount (some 0) 20 = 20
    ∧ 0 < Store.jsParseInt jsNum2p7
    ∧ Store.normalizeCount (some jsNum2p7) 20 = (Store.jsParseInt jsNum2p7).toNat :=
  ⟨by decide, c10_amended_normalize_count.2.1 0 20 (by decide),
   by decide, c10_amended_normalize_count.2.2.1 jsNum2p7 20 (by decide)⟩

namespace Attach

theorem fetchLoop_ok {E : Type} (oracle : ℕ → Except E Buf) (left attempt : ℕ)
    (waits : List ℕ) (b : Buf) (h : oracle attempt = .ok b) :
    fetchLoop oracle left attempt waits = (.ok b, attempt, waits) := by
  cases left <;> simp [fetchLoop, h]

theorem fetchLoop_error_step {E : Type} (oracle : ℕ → Except E Buf) (left attempt : ℕ)
    (waits : List ℕ) (e : E) (h : oracle attempt = .error e) :
    fetchLoop oracle (left + 1) attempt waits
      = fetchLoop oracle left (attempt + 1) (waits ++ [RETRY_DELAY_MS * attempt]) := by
  simp [fetchLoop, h]

theorem fetchLoop_error_last {E : Type} (oracle : ℕ → Except E Buf) (attempt : ℕ)
    (waits : List ℕ) (e : E) (h : oracle attempt = .error e) :
    fetchLoop oracle 0 attempt waits = (.error e, attempt, waits) := by
  simp [fetchLoop, h]

/-- The three concrete runs of `fetchAsBuffer`: success on attempt `1`, `2`
or `3` given earlier failures, and exhaustion after three failures. -/
theorem fetchAsBuffer_cases {E : Type} (oracle : ℕ → Except E Buf) :
    (∀ b, oracle 1 = .ok b → fetchAsBuffer oracle = (.ok b, 1, []))
    ∧ (∀ e₁ b, oracle 1 = .error e₁ → oracle 2 = .ok b →
        fetchAsBuffer oracle = (.ok b, 2, [500]))
    ∧ (∀ e₁ e₂ b, oracle 1 = .error e₁ → oracle 2 = .error e₂ → oracle 3 = .ok b →
        fetchAsBuffer oracle = (.ok b, 3, [500, 1000]))
    ∧ (∀ e₁ e₂ e₃, oracle 1 = .error e₁ → oracle 2 = .error e₂ → oracle 3 = .error e₃ →
        fetchAsBuffer oracle = (.error e₃, 3, [500, 1000])) := by
  have h0 : fetchAsBuffer oracle = fetchLoop oracle (1 + 1) 1 [] := rfl
  have hw1 : ([] : List ℕ) ++ [RETRY_DELAY_MS * 1] = [500] := by
    simp [RETRY_DELAY_MS]
  have hw2 : [500] ++ [RETRY_DELAY_MS * 2] = [500, 1000] := by
    simp [RETRY_DELAY_MS]
  refine ⟨?_, ?_, ?_, ?_⟩
  · intro b h1
    rw [h0, fetchLoop_ok oracle _ _ _ b h1]
  · intro e₁ b h1 h2
    rw [h0, fetchLoop_error_step oracle 1 1 [] e₁ h1, hw1,
      fetchLoop_ok oracle _ _ _ b h2]
  · intro e₁ e₂ b h1 h2 h3
    rw [h0, fetchLoop_error_step oracle 1 1 [] e₁ h1, hw1,
      show (1 : ℕ) = 0 + 1 from rfl,
      fetchLoop_error_step oracle 0 2 [500] e₂ h2, hw2,
      fetchLoop_ok oracle _ _ _ b h3]
  · intro e₁ e₂ e₃ h1 h2 h3
    rw [h0, fetchLoop_error_step oracle 1 1 [] e₁ h1, hw1,
      show (1 : ℕ) = 0 + 1 from rfl,
      fetchLoop_error_step oracle 0 2 [500] e₂ h2, hw2,
      fetchLoop_error_last oracle 3 _ e₃ h3]

end Attach

/-- C4: `fetchAsBuffer` makes at most 3 attempts with the linear back-off
`attempt × 500ms` after each failed non-final attempt; a success returns the
fetched bytes immediately with no further attempt, and after the third
consecutive failure the last underlying error is rethrown unchanged. -/
theorem c4_fetch_retry_policy :
    (∀ (E : Type) (oracle : ℕ → Except E Attach.Buf),
        (Attach.fetchAsBuffer oracle).2.1 ≤ 3)
    ∧ (∀ (E : Type) (oracle : ℕ → Except E Attach.Buf) (b : Attach.Buf),
        oracle 1 = .ok b → Attach.fetchAsBuffer oracle = (.ok b, 1, []))
    ∧ (∀ (E : Type) (oracle : ℕ → Except E Attach.Buf) (e₁ : E) (b : Attach.Buf),
        oracle 1 = .error e₁ → oracle 2 = .ok b →
        Attach.fetchAsBuffer oracle = (.ok b, 2, [500]))
    ∧ (∀ (E : Type) (oracle : ℕ → Except E Attach.Buf) (e₁ e₂ : E) (b : Attach.Buf),
        oracle 1 = .error e₁ → oracle 2 = .error e₂ → oracle 3 = .ok b →
        Attach.fetchAsBuffer oracle = (.ok b, 3, [500, 1000]))
    ∧ (∀ (E : Type) (oracle : ℕ → Except E Attach.Buf) (e₁ e₂ e₃ : E),
        oracle 1 = .error e₁ → oracle 2 = .error e₂ → oracle 3 = .error e₃ →
        Attach.fetchAsBuffer oracle = (.error e₃, 3, [500, 1000])) := by
  refine ⟨?_, ?_, ?_, ?_, ?_⟩
  · intro E oracle
    obtain ⟨hA, hB, hC, hD⟩ := Attach.fetchAsBuffer_cases oracle
    cases h1 : oracle 1 with
    | ok b =>
        rw [hA b h1]
        show (1 : ℕ) ≤ 3
        decide
    | error e1 =>
        cases h2 : oracle 2 with
        | ok b =>
            rw [hB e1 b h1 h2]
            show (2 : ℕ) ≤ 3
            decide
        | error e2 =>
            cases h3 : oracle 3 with
            | ok b => rw [hC e1 e2 b h1 h2 h3]
            | error e3 => rw [hD e1 e2 e3 h1 h2 h3]
  · intro E oracle b h1
    exact (Attach.fetchAsBuffer_cases oracle).1 b h1
  · intro E oracle e₁ b h1 h2
    exact (Attach.fetchAsBuffer_cases oracle).2.1 e₁ b h1 h2
  · intro E oracle e₁ e₂ b h1 h2 h3
    exact (Attach.fetchAsBuffer_cases oracle).2.2.1 e₁ e₂ b h1 h2 h3
  · intro E oracle e₁ e₂ e₃ h1 h2 h3
    exact (Attach.fetchAsBuffer_cases oracle).2.2.2 e₁ e₂ e₃ h1 h2 h3

/-- Witness for C4: a concrete oracle failing on attempts 1 and 2 and
succeeding on attempt 3. -/
theorem c4_witness :
    ((fun i => if i = 3 then Except.ok [7] else Except.error "boom")
        : ℕ → Except String Attach.Buf) 1 = .error "boom"
    ∧ Attach.fetchAsBuffer
        (fun i => if i = 3 then Except.ok [7] else Except.error ("boom" : String))
      = (.ok [7], 3, [500, 1000]) :=
  ⟨by decide,
   c4_fetch_retry_policy.2.2.2.1 String
     (fun i => if i = 3 then Except.ok [7] else Except.error "boom")
     "boom" "boom" [7] (by decide) (by decide) (by decide)⟩

/-- C6: `classifyDiscordAttachment` reports `isImage` exactly when the
declared MIME type starts with `image/`, or the name's extension is a
recognized image extension, or both dimensions are present and finite; in
particular any declared `image/` MIME forces `isImage`, and the Fuku
variant's `isImageAttachment` also accepts every `image/` MIME regardless of
extension. -/
theorem c6_classifier_is_image :
    (∀ a : Attach.RawAttachment,
      (Attach.classifyDiscordAttachment a).isImage = true ↔
        (jsStartsWith ((a.contentType).getD "") "image/" = true
          ∨ Attach.regexExt (jsOrOpt a.name "") ∈ Attach.IMAGE_EXTS
          ∨ (a.width.isSome = true ∧ a.height.isSome = true)))
    ∧ (∀ a : Attach.RawAttachment,
        jsStartsWith ((a.contentType).getD "") "image/" = true →
        (Attach.classifyDiscordAttachment a).isImage = true)
    ∧ (∀ name mimeType : String, jsStartsWith mimeType "image/" = true →
        Fuku.isImageAttachment name mimeType = true) := by
  have hiff : ∀ a : Attach.RawAttachment,
      (Attach.classifyDiscordAttachment a).isImage = true ↔
        (jsStartsWith ((a.contentType).getD "") "image/" = true
          ∨ Attach.regexExt (jsOrOpt a.name "") ∈ Attach.IMAGE_EXTS
          ∨ (a.width.isSome = true ∧ a.height.isSome = true)) := by
    intro a
    simp only [Attach.classifyDiscordAttachment, decide_eq_true_eq]
  refine ⟨hiff, ?_, ?_⟩
  · intro a h
    exact (hiff a).mpr (Or.inl h)
  · intro name mimeType h
    simp only [Fuku.isImageAttachment, decide_eq_true_eq]
    exact Or.inr h

/-- Witness for C6: a declared `image/webp` MIME on a `.dat` name classifies
as an image in both modules. -/
theorem c6_witness :
    (Attach.classifyDiscordAttachment
        { name := some "a.dat", contentType := some "image/webp", width := none,
          height := none, size := none, url := some "u", proxyURL := none }).isImage = true
    ∧ Fuku.isImageAttachment "a.dat" "image/webp" = true :=
  ⟨c6_classifier_is_image.2.1
      { name := some "a.dat", contentType := some "image/webp", width := none,
        height := none, size := none, url := some "u", proxyURL := none } (by decide),
   c6_classifier_is_image.2.2 "a.dat" "image/webp" (by decide)⟩

/-- C7 counterexample: a `.pdf` descriptor with finite width and height and
no declared MIME resolves to `image/png`, not to the extension table's
`application/pdf`: the code tests dimensions before the non-image extension
table. -/
theorem c7_counterexample :
    (Attach.classifyDiscordAttachment
        { name := some "doc.pdf", contentType := none, width := some 10,
          height := some 10, size := none, url := some "u",
          proxyURL := none }).mimeType = "image/png"
    ∧ Attach.mimeByExtension ".pdf" = some "application/pdf"
    ∧ ("image/png" : String) ≠ "application/pdf" := by
  refine ⟨by decide, by decide, by decide⟩

/-- C7 amended: the resolved MIME precedence of `classifyDiscordAttachment`
is: declared MIME when truthy; else the extension mapping when the extension
is a recognized image extension; else `image/png` when both dimensions are
present; else the extension table entry, defaulting to
`application/octet-stream` — so a known non-image extension such as `.pdf`
resolves to `image/png`, not via the table, when dimensions are present. -/
theorem c7_amended_mime_precedence :
    (∀ a : Attach.RawAttachment, (a.contentType).getD "" ≠ "" →
      (Attach.classifyDiscordAttachment a).mimeType = (a.contentType).getD "")
    ∧ (∀ a : Attach.RawAttachment, (a.contentType).getD "" = "" →
        Attach.regexExt (jsOrOpt a.name "") ∈ Attach.IMAGE_EXTS →
        (Attach.classifyDiscordAttachment a).mimeType
          = Attach.extToMime (jsOrOpt a.name ""))
    ∧ (∀ a : Attach.RawAttachment, (a.contentType).getD "" = "" →
        ¬ Attach.regexExt (jsOrOpt a.name "") ∈ Attach.IMAGE_EXTS →
        a.width.isSome = true → a.height.isSome = true →
        (Attach.classifyDiscordAttachment a).mimeType = "image/png")
    ∧ (∀ a : Attach.RawAttachment, (a.contentType).getD "" = "" →
        ¬ Attach.regexExt (jsOrOpt a.name "") ∈ Attach.IMAGE_EXTS →
        ¬ (a.width.isSome = true ∧ a.height.isSome = true) →
        (Attach.classifyDiscordAttachment a).mimeType
          = jsOrOpt (Attach.mimeByExtension (Attach.regexExt (jsOrOpt a.name "")))
              "application/octet-stream") := by
  refine ⟨?_, ?_, ?_, ?_⟩
  · intro a h
    simp only [Attach.classifyDiscordAttachment]
    rw [jsOr_of_ne_nil _ h]
  · intro a h hext
    simp only [Attach.classifyDiscordAttachment]
    rw [h, jsOr_nil, if_pos hext]
  · intro a h hext hw hh
    simp only [Attach.classifyDiscordAttachment]
    rw [h, jsOr_nil, if_neg hext, if_pos ⟨hw, hh⟩]
  · intro a h hext hdim
    simp only [Attach.classifyDiscordAttachment]
    rw [h, jsOr_nil, if_neg hext, if_neg hdim]

/-- Witness for C7 amended: the `.pdf`-with-dimensions descriptor takes the
`image/png` branch. -/
theorem c7_witness :
    (Attach.classifyDiscordAttachment
        { name := some "doc.pdf", contentType := none, width := some 10,
          height := some 10, size := none, url := some "u",
          proxyURL := none }).mimeType = "image/png" :=
  c7_amended_mime_precedence.2.2.1
    { name := some "doc.pdf", contentType := none, width := some 10,
      height := some 10, size := none, url := some "u", proxyURL := none }
    (by decide) (by decide) (by decide) (by decide)

/-- C9: once `uploadToGeminiFileAPI` has created its temporary directory and
written the temporary file, both cleanup deletions are issued on every exit
path (success, remote-API failure, or a failing cleanup step — the trace
always contains the `unlink` and the recursive `rmdir`), and the outcome of
the cleanup calls never changes the call's result: a successful upload stays
successful and an API failure propagates the API error. -/
theorem c9_upload_cleanup :
    (∀ (env : Attach.UploadEnv) (mimeType : String) (name apiKey : Option String),
      jsTruthy apiKey = true → env.mkdtempFails = none → env.writeFails = none →
      Attach.FsEvent.unlink
          (env.tmpDirName ++ "/" ++ Attach.generateTempFilePath env.randomHex name)
          ∈ (Attach.uploadToGeminiFileAPI env mimeType name apiKey).2
        ∧ Attach.FsEvent.rmdir env.tmpDirName
          ∈ (Attach.uploadToGeminiFileAPI env mimeType name apiKey).2)
    ∧ (∀ (env : Attach.UploadEnv) (mimeType : String) (name apiKey : Option String)
        (u r : Option (Option String)),
        (Attach.uploadToGeminiFileAPI { env with unlinkFails := u, rmFails := r }
          mimeType name apiKey).1
          = (Attach.uploadToGeminiFileAPI env mimeType name apiKey).1)
    ∧ (∀ (env : Attach.UploadEnv) (mimeType : String) (name apiKey : Option String)
        (s : String),
        jsTruthy apiKey = true → env.mkdtempFails = none → env.writeFails = none →
        env.uploadResult = .error s →
        (Attach.uploadToGeminiFileAPI env mimeType name apiKey).1
          = .error (.api s))
    ∧ (∀ (env : Attach.UploadEnv) (mimeType : String) (name apiKey : Option String)
        (resp : Attach.UploadResponse) (handle : String),
        jsTruthy apiKey = true → env.mkdtempFails = none → env.writeFails = none →
        env.uploadResult = .ok resp →
        jsOrOpt2 (resp.file.getD resp.direct).fname
            (jsOrOpt2 (resp.file.getD resp.direct).uri (resp.file.getD resp.direct).fileUri)
          = some handle →
        jsTruthy (some handle) = true →
        (Attach.uploadToGeminiFileAPI env mimeType name apiKey).1
          = .ok (.fileData handle
              (jsOr mimeType
                (jsOrOpt (resp.file.getD resp.direct).fmimeType
                  "application/octet-stream")))) := by
  refine ⟨?_, ?_, ?_, ?_⟩
  · intro env mimeType name apiKey hkey hmk hwr
    simp only [Attach.uploadToGeminiFileAPI, hkey, hmk, hwr, Bool.not_true,
      Bool.false_eq_true, if_false]
    constructor
    · simp
    · simp
  · intro env mimeType name apiKey u r
    rfl
  · intro env mimeType name apiKey s hkey hmk hwr hup
    simp only [Attach.uploadToGeminiFileAPI, hkey, hmk, hwr, hup, Bool.not_true,
      Bool.false_eq_true, if_false]
    simp
  · intro env mimeType name apiKey resp handle hkey hmk hwr hup hhandle htruthy
    simp only [Attach.uploadToGeminiFileAPI, hkey, hmk, hwr, hup, hhandle, htruthy,
      Bool.not_true, Bool.false_eq_true, if_false, if_true]
    simp

/-- Witness for C9: a concrete upload whose `unlink` and `rm` both fail, with
a successful remote upload: both cleanup events are in the trace and the
result is still the file reference. -/
theorem c9_witness :
    jsTruthy (some "key") = true
    ∧ Attach.FsEvent.rmdir "tmpdir"
        ∈ (Attach.uploadToGeminiFileAPI
            { tmpDirName := "tmpdir", randomHex := "abc", mkdtempFails := none,
              writeFails := none,
              uploadResult := .ok ⟨none, ⟨some "files/x", none, none, none⟩⟩,
              unlinkFails := some (some "EPERM"), rmFails := some (some "EPERM") }
            "image/png" (some "a.png") (some "key")).2
    ∧ (Attach.uploadToGeminiFileAPI
            { tmpDirName := "tmpdir", randomHex := "abc", mkdtempFails := none,
              writeFails := none,
              uploadResult := .ok ⟨none, ⟨some "files/x", none, none, none⟩⟩,
              unlinkFails := some (some "EPERM"), rmFails := some (some "EPERM") }
            "image/png" (some "a.png") (some "key")).1
        = .ok (.fileData "files/x" "image/png") := by
  refine ⟨by decide, ?_, ?_⟩
  · exact ((c9_upload_cleanup.1
      { tmpDirName := "tmpdir", randomHex := "abc", mkdtempFails := none,
        writeFails := none,
        uploadResult := .ok ⟨none, ⟨some "files/x", none, none, none⟩⟩,
        unlinkFails := some (some "EPERM"), rmFails := some (some "EPERM") }
      "image/png" (some "a.png") (some "key") (by decide) rfl rfl).2)
  · have h := c9_upload_cleanup.2.2.2
      { tmpDirName := "tmpdir", randomHex := "abc", mkdtempFails := none,
        writeFails := none,
        uploadResult := .ok ⟨none, ⟨some "files/x", none, none, none⟩⟩,
        unlinkFails := some (some "EPERM"), rmFails := some (some "EPERM") }
      "image/png" (some "a.png") (some "key")
      ⟨none, ⟨some "files/x", none, none, none⟩⟩ "files/x"
      (by decide) rfl rfl rfl (by decide) (by decide)
    rw [h]
    decide

namespace Attach

/-- The main builder never takes the empty-fallback branch: its output is the
leading text part followed by the per-image and per-file contributions in
order. -/
theorem buildGeminiParts_eq (codec : Codec) (text : Option String)
    (images : List (BuildImage × ItemOutcome)) (files : List (BuildFile × ItemOutcome))
    (apiKey : Option String) (maxInlineSize : ℕ) :
    buildGeminiParts codec text images files apiKey maxInlineSize
      = Part.text (text.getD "") ::
          (images.flatMap (imageParts codec apiKey maxInlineSize)
            ++ files.flatMap (fileParts codec apiKey)) := by
  unfold buildGeminiParts
  rw [if_neg]
  · rfl
  · intro h
    exact List.cons_ne_nil _ _ h

theorem length_emptyFallback (l : List Part) :
    1 ≤ (if l = [] then [Part.text ""] else l).length := by
  split
  · decide
  · next h => exact List.length_pos.mpr h

theorem imageParts_fetch_error (codec : Codec) (apiKey : Option String)
    (maxInlineSize : ℕ) (img : BuildImage) (o : ItemOutcome)
    (hurl : jsTruthy img.url = true) (hf : o.fetch = .error ()) :
    imageParts codec apiKey maxInlineSize (img, o) = [imageFailNotice img.name] := by
  simp [imageParts, hurl, hf]

theorem imageParts_upload_error (codec : Codec) (apiKey : Option String)
    (maxInlineSize : ℕ) (img : BuildImage) (o : ItemOutcome) (buf : Buf)
    (hurl : jsTruthy img.url = true) (hf : o.fetch = .ok buf)
    (hinline : maybeInlineImage codec buf
      (jsOr img.mimeType (jsOr (normalizeMimeType img.name img.mimeType) "image/png"))
      img.size maxInlineSize = none)
    (hkey : jsTruthy apiKey = true) (hup : o.upload = .error ()) :
    imageParts codec apiKey maxInlineSize (img, o) = [imageFailNotice img.name] := by
  simp [imageParts, hurl, hf, hinline, hkey, hup]

theorem fileParts_fetch_error (codec : Codec) (apiKey : Option String)
    (f : BuildFile) (o : ItemOutcome)
    (hurl : jsTruthy f.url = true) (hf : o.fetch = .error ()) :
    fileParts codec apiKey (f, o) = [fileFailNotice f.name f.mimeType] := by
  simp [fileParts, hurl, hf]

theorem fileParts_upload_error (codec : Codec) (apiKey : Option String)
    (f : BuildFile) (o : ItemOutcome) (buf : Buf)
    (hurl : jsTruthy f.url = true) (hf : o.fetch = .ok buf)
    (hkey : jsTruthy apiKey = true) (hup : o.upload = .error ()) :
    fileParts codec apiKey (f, o)
      = fileBaseParts codec f.name
          (jsOr f.mimeType (jsOr (normalizeMimeType f.name "") "application/octet-stream"))
          buf
        ++ [fileFailNotice f.name f.mimeType] := by
  simp [fileParts, hurl, hf, hkey, hup]

/-- The image branch taken for an oversized image without an upload
credential: the dedicated "too large" text notice, and nothing else. -/
theorem imageParts_too_large (codec : Codec) (maxInlineSize : ℕ)
    (img : BuildImage) (o : ItemOutcome) (buf : Buf)
    (hurl : jsTruthy img.url = true) (hf : o.fetch = .ok buf)
    (hmime : jsStartsWith
      (jsOr img.mimeType (jsOr (normalizeMimeType img.name img.mimeType) "image/png"))
      "image/" = true)
    (hsize : (maxInlineSize : Int) < actualSize img.size buf) :
    imageParts codec none maxInlineSize (img, o)
      = [imageTooLargeNotice img.name
          (jsOr img.mimeType
            (jsOr (normalizeMimeType img.name img.mimeType) "image/png"))] := by
  have hinline : maybeInlineImage codec buf
      (jsOr img.mimeType (jsOr (normalizeMimeType img.name img.mimeType) "image/png"))
      img.size maxInlineSize = none := by
    simp [maybeInlineImage, hmime, hsize]
  simp [imageParts, hurl, hf, hinline,
    show jsTruthy (none : Option String) = false from rfl]

end Attach

namespace Fuku

theorem imageParts_fetch_error_fuku (codec : Attach.Codec) (apiKey : Option String)
    (img : Attach.BuildImage) (o : Attach.ItemOutcome) (hf : o.fetch = .error ()) :
    imageParts codec apiKey (img, o) = [Attach.imageFailNotice img.name] := by
  simp [imageParts, hf]

/-- The Fuku builder when the trimmed text is nonempty: leading text part
then the per-item contributions. -/
theorem buildGeminiParts_eq_of_trim (codec : Attach.Codec) (text : Option String)
    (images : List (Attach.BuildImage × Attach.ItemOutcome))
    (files : List (Attach.BuildFile × Attach.ItemOutcome)) (apiKey : Option String)
    (h : (jsTrim (text.getD "")).toList ≠ []) :
    buildGeminiParts codec text images files apiKey
      = Attach.Part.text (text.getD "") ::
          (images.flatMap (imageParts codec apiKey)
            ++ files.flatMap (fileParts codec apiKey)) := by
  simp only [buildGeminiParts]
  rw [if_pos h, if_neg]
  · simp
  · intro hc
    rw [List.cons_append] at hc
    exact List.cons_ne_nil _ _ hc

theorem buildGeminiParts_length (codec : Attach.Codec) (text : Option String)
    (images : List (Attach.BuildImage × Attach.ItemOutcome))
    (files : List (Attach.BuildFile × Attach.ItemOutcome)) (apiKey : Option String) :
    1 ≤ (buildGeminiParts codec text images files apiKey).length := by
  simp only [buildGeminiParts]
  exact Attach.length_emptyFallback _

end Fuku

/-- C1 counterexample: the Fuku variant with blank (all-whitespace) text and
no attachments returns the empty-fallback text part, whose text is not the
supplied string. -/
theorem c1_counterexample :
    Fuku.buildGeminiParts trivCodec (some " ") [] [] none = [Attach.Part.text ""]
    ∧ Attach.Part.text "" ≠ Attach.Part.text " " := by
  refine ⟨by decide, by decide⟩

/-- C1 amended: the main module's builder always returns a list whose first
element is a text part equal to the supplied text (empty when no string was
supplied), of length ≥ 1.  The Fuku variant always returns a non-empty list,
but its first element equals the supplied text only when the text is
nonempty after trimming. -/
theorem c1_amended_first_part_text :
    (∀ (codec : Attach.Codec) (text : Option String) images files
        (apiKey : Option String) (maxInlineSize : ℕ),
      (Attach.buildGeminiParts codec text images files apiKey maxInlineSize).head?
          = some (Attach.Part.text (text.getD ""))
        ∧ 1 ≤ (Attach.buildGeminiParts codec text images files apiKey maxInlineSize).length)
    ∧ (∀ (codec : Attach.Codec) (text : Option String) images files
        (apiKey : Option String),
      1 ≤ (Fuku.buildGeminiParts codec text images files apiKey).length)
    ∧ (∀ (codec : Attach.Codec) (text : Option String) images files
        (apiKey : Option String),
      (jsTrim (text.getD "")).toList ≠ [] →
      (Fuku.buildGeminiParts codec text images files apiKey).head?
        = some (Attach.Part.text (text.getD ""))) := by
  refine ⟨?_, ?_, ?_⟩
  · intro codec text images files apiKey maxInlineSize
    rw [Attach.buildGeminiParts_eq]
    exact ⟨rfl, by simp⟩
  · intro codec text images files apiKey
    exact Fuku.buildGeminiParts_length codec text images files apiKey
  · intro codec text images files apiKey h
    rw [Fuku.buildGeminiParts_eq_of_trim codec text images files apiKey h]
    rfl

/-- Witness for C1 amended: nonblank text `"hi"` heads the Fuku output. -/
theorem c1_witness :
    (jsTrim ((some "hi" : Option String).getD "")).toList ≠ []
    ∧ (Fuku.buildGeminiParts trivCodec (some "hi") [] [] none).head?
        = some (Attach.Part.text "hi") :=
  ⟨by decide, c1_amended_first_part_text.2.2 trivCodec (some "hi") [] [] none (by decide)⟩

/-- C5 counterexample: in the Fuku variant an oversized (`9000000 > 8MB`)
image with no upload credential produces only the generic
"could not be processed" notice — no output part says "too large", so the
claim's required notice is absent there. -/
theorem c5_counterexample :
    Fuku.buildGeminiParts trivCodec (some "hi")
        [({ url := some "u", name := "a.png", size := some 9000000,
            mimeType := "image/png" },
          { fetch := .ok [0], upload := .error () })] [] none
      = [Attach.Part.text "hi",
         Attach.Part.text "Attached image could not be processed (a.png)."]
    ∧ strContains "Attached image could not be processed (a.png)." "too large" = false
    ∧ strContains "Attached image could not be processed (a.png)."
        "could not be uploaded" = false := by
  refine ⟨by decide, by decide, by decide⟩

/-- C5 amended: in the main module, an image whose declared-or-measured size
exceeds the inline ceiling when no `apiKey` is configured contributes exactly
one text part — the "too large to inline and could not be uploaded" notice,
which embeds the attachment name — and no inline-data or file-reference part.
In the Fuku variant the same situation contributes exactly the generic
"could not be processed" notice instead (also with no inline or file-reference
part). -/
theorem c5_amended_too_large_notice :
    (∀ (codec : Attach.Codec) (text : Option String) xs ys
        (files : List (Attach.BuildFile × Attach.ItemOutcome)) (maxInlineSize : ℕ)
        (img : Attach.BuildImage) (o : Attach.ItemOutcome) (buf : Attach.Buf),
      jsTruthy img.url = true → o.fetch = .ok buf →
      jsStartsWith
          (jsOr img.mimeType
            (jsOr (Attach.normalizeMimeType img.name img.mimeType) "image/png"))
          "image/" = true →
      (maxInlineSize : Int) < Attach.actualSize img.size buf →
      Attach.buildGeminiParts codec text (xs ++ (img, o) :: ys) files none maxInlineSize
        = Attach.Part.text (text.getD "") ::
            (xs.flatMap (Attach.imageParts codec none maxInlineSize)
              ++ [Attach.imageTooLargeNotice img.name
                    (jsOr img.mimeType
                      (jsOr (Attach.normalizeMimeType img.name img.mimeType) "image/png"))]
              ++ ys.flatMap (Attach.imageParts codec none maxInlineSize)
              ++ files.flatMap (Attach.fileParts codec none)))
    ∧ (∀ name mimeType : String,
        (∃ l r : String, Attach.imageTooLargeNotice name mimeType
            = Attach.Part.text (l ++ name ++ r))
        ∧ (∃ l : String, Attach.imageTooLargeNotice name mimeType
            = Attach.Part.text
                (l ++ ") was too large to inline and could not be uploaded.")))
    ∧ (∀ (codec : Attach.Codec) (img : Attach.BuildImage) (o : Attach.ItemOutcome)
        (buf : Attach.Buf),
      o.fetch = .ok buf →
      Fuku.maybeInlineImage codec buf
          (jsOr (jsOr img.mimeType (Fuku.normalizeMimeType img.name "")) "image/png")
          img.size = none →
      Fuku.imageParts codec none (img, o) = [Attach.imageFailNotice img.name]) := by
  refine ⟨?_, ?_, ?_⟩
  · intro codec text xs ys files maxInlineSize img o buf hurl hf hmime hsize
    rw [Attach.buildGeminiParts_eq, List.flatMap_append, List.flatMap_cons,
      Attach.imageParts_too_large codec maxInlineSize img o buf hurl hf hmime hsize]
    simp [List.append_assoc]
  · intro name mimeType
    constructor
    · refine ⟨"Attached image ", " (" ++ mimeType ++
        ") was too large to inline and could not be uploaded.", ?_⟩
      simp [Attach.imageTooLargeNotice, String.append_assoc]
    · refine ⟨"Attached image " ++ name ++ " (" ++ mimeType, ?_⟩
      rfl
  · intro codec img o buf hf hinline
    simp [Fuku.imageParts, hf, hinline,
      show jsTruthy (none : Option String) = false from rfl]

/-- Witness for C5 amended: a 9MB-declared `image/png` with no key, among no
other attachments. -/
theorem c5_witness :
    Attach.buildGeminiParts trivCodec (some "hi") [(exImage, exOutcome)] [] none 4000000
      = [Attach.Part.text "hi",
         Attach.Part.text
           "Attached image a.png (image/png) was too large to inline and could not be uploaded."] := by
  have h := c5_amended_too_large_notice.1 trivCodec (some "hi") [] [] [] 4000000
    exImage exOutcome [0] (by decide) (by decide) (by decide) (by decide)
  calc Attach.buildGeminiParts trivCodec (some "hi") [(exImage, exOutcome)] [] none 4000000
      = Attach.buildGeminiParts trivCodec (some "hi")
          ([] ++ (exImage, exOutcome) :: []) [] none 4000000 := rfl
    _ = Attach.Part.text ((some "hi" : Option String).getD "") ::
          (([] : List (Attach.BuildImage × Attach.ItemOutcome)).flatMap
              (Attach.imageParts trivCodec none 4000000)
            ++ [Attach.imageTooLargeNotice exImage.name
                  (jsOr exImage.mimeType
                    (jsOr (Attach.normalizeMimeType exImage.name exImage.mimeType)
                      "image/png"))]
            ++ ([] : List (Attach.BuildImage × Attach.ItemOutcome)).flatMap
              (Attach.imageParts trivCodec none 4000000)
            ++ ([] : List (Attach.BuildFile × Attach.ItemOutcome)).flatMap
              (Attach.fileParts trivCodec none)) := h
    _ = [Attach.Part.text "hi",
         Attach.Part.text
           "Attached image a.png (image/png) was too large to inline and could not be uploaded."] := by
      decide

/-- C8: the main builder never aborts on a failing attachment.  Its output is
always the leading text part followed by each attachment's contribution in
list order; a failing fetch or upload contributes a textual notice (for files
the already-emitted descriptor parts remain, followed by the notice), and
removing a failing image from the batch removes exactly its notice while
every other attachment's parts are unchanged and in order.  The Fuku variant
isolates a failing image fetch the same way. -/
theorem c8_fault_isolation :
    (∀ (codec : Attach.Codec) (text : Option String) images files
        (apiKey : Option String) (maxInlineSize : ℕ),
      Attach.buildGeminiParts codec text images files apiKey maxInlineSize
        = Attach.Part.text (text.getD "") ::
            (images.flatMap (Attach.imageParts codec apiKey maxInlineSize)
              ++ files.flatMap (Attach.fileParts codec apiKey)))
    ∧ (∀ (codec : Attach.Codec) (text : Option String) xs ys files
        (apiKey : Option String) (maxInlineSize : ℕ) (img : Attach.BuildImage)
        (o : Attach.ItemOutcome),
      jsTruthy img.url = true → o.fetch = .error () →
      Attach.buildGeminiParts codec text (xs ++ (img, o) :: ys) files apiKey maxInlineSize
        = Attach.Part.text (text.getD "") ::
            (xs.flatMap (Attach.imageParts codec apiKey maxInlineSize)
              ++ [Attach.imageFailNotice img.name]
              ++ ys.flatMap (Attach.imageParts codec apiKey maxInlineSize)
              ++ files.flatMap (Attach.fileParts codec apiKey))
        ∧ Attach.buildGeminiParts codec text (xs ++ ys) files apiKey maxInlineSize
          = Attach.Part.text (text.getD "") ::
              (xs.flatMap (Attach.imageParts codec apiKey maxInlineSize)
                ++ ys.flatMap (Attach.imageParts codec apiKey maxInlineSize)
                ++ files.flatMap (Attach.fileParts codec apiKey)))
    ∧ (∀ (codec : Attach.Codec) (apiKey : Option String) (maxInlineSize : ℕ)
        (img : Attach.BuildImage) (o : Attach.ItemOutcome) (buf : Attach.Buf),
      jsTruthy img.url = true → o.fetch = .ok buf →
      Attach.maybeInlineImage codec buf
          (jsOr img.mimeType
            (jsOr (Attach.normalizeMimeType img.name img.mimeType) "image/png"))
          img.size maxInlineSize = none →
      jsTruthy apiKey = true → o.upload = .error () →
      Attach.imageParts codec apiKey maxInlineSize (img, o)
        = [Attach.imageFailNotice img.name])
    ∧ (∀ (codec : Attach.Codec) (apiKey : Option String) (f : Attach.BuildFile)
        (o : Attach.ItemOutcome),
      jsTruthy f.url = true → o.fetch = .error () →
      Attach.fileParts codec apiKey (f, o) = [Attach.fileFailNotice f.name f.mimeType])
    ∧ (∀ (codec : Attach.Codec) (apiKey : Option String) (f : Attach.BuildFile)
        (o : Attach.ItemOutcome) (buf : Attach.Buf),
      jsTruthy f.url = true → o.fetch = .ok buf →
      jsTruthy apiKey = true → o.upload = .error () →
      Attach.fileParts codec apiKey (f, o)
        = Attach.fileBaseParts codec f.name
            (jsOr f.mimeType
              (jsOr (Attach.normalizeMimeType f.name "") "application/octet-stream")) buf
          ++ [Attach.fileFailNotice f.name f.mimeType])
    ∧ (∀ (codec : Attach.Codec) (apiKey : Option String) (img : Attach.BuildImage)
        (o : Attach.ItemOutcome),
      o.fetch = .error () →
      Fuku.imageParts codec apiKey (img, o) = [Attach.imageFailNotice img.name]) := by
  refine ⟨?_, ?_, ?_, ?_, ?_, ?_⟩
  · intro codec text images files apiKey maxInlineSize
    exact Attach.buildGeminiParts_eq codec text images files apiKey maxInlineSize
  · intro codec text xs ys files apiKey maxInlineSize img o hurl hf
    constructor
    · rw [Attach.buildGeminiParts_eq, List.flatMap_append, List.flatMap_cons,
        Attach.imageParts_fetch_error codec apiKey maxInlineSize img o hurl hf]
      simp [List.append_assoc]
    · rw [Attach.buildGeminiParts_eq, List.flatMap_append]
  · intro codec apiKey maxInlineSize img o buf hurl hf hinline hkey hup
    exact Attach.imageParts_upload_error codec apiKey maxInlineSize img o buf hurl hf
      hinline hkey hup
  · intro codec apiKey f o hurl hf
    exact Attach.fileParts_fetch_error codec apiKey f o hurl hf
  · intro codec apiKey f o buf hurl hf hkey hup
    exact Attach.fileParts_upload_error codec apiKey f o buf hurl hf hkey hup
  · intro codec apiKey img o hf
    exact Fuku.imageParts_fetch_error_fuku codec apiKey img o hf

/-- Witness for C8: a batch of a failing image (dead URL) between two healthy
outcomes would still build; here the failing image's notice is inserted
between the leading text and nothing else. -/
theorem c8_witness :
    jsTruthy (some "u") = true
    ∧ Attach.buildGeminiParts trivCodec (some "hi")
        [(exImage, ⟨.error (), .error ()⟩)] [] (some "k") 4000000
      = [Attach.Part.text "hi",
         Attach.Part.text "Attached image could not be processed (a.png)."] := by
  refine ⟨by decide, ?_⟩
  have h := (c8_fault_isolation.2.1 trivCodec (some "hi") [] []
    [] (some "k") 4000000 exImage ⟨.error (), .error ()⟩ (by decide) rfl).1
  calc Attach.buildGeminiParts trivCodec (some "hi")
        [(exImage, ⟨.error (), .error ()⟩)] [] (some "k") 4000000
      = Attach.buildGeminiParts trivCodec (some "hi")
          ([] ++ (exImage, (⟨.error (), .error ()⟩ : Attach.ItemOutcome)) :: []) []
          (some "k") 4000000 := rfl
    _ = Attach.Part.text ((some "hi" : Option String).getD "") ::
          (([] : List (Attach.BuildImage × Attach.ItemOutcome)).flatMap
              (Attach.imageParts trivCodec (some "k") 4000000)
            ++ [Attach.imageFailNotice exImage.name]
            ++ ([] : List (Attach.BuildImage × Attach.ItemOutcome)).flatMap
              (Attach.imageParts trivCodec (some "k") 4000000)
            ++ ([] : List (Attach.BuildFile × Attach.ItemOutcome)).flatMap
              (Attach.fileParts trivCodec (some "k"))) := h
    _ = [Attach.Part.text "hi",
         Attach.Part.text "Attached image could not be processed (a.png)."] := by
      decide
